import Mathlib

/-!
# Verification of the goaci asset resolver and staging pipeline

This file is a shallow embedding, in Lean 4, of the core of the goaci
repository: the asset dependency-closure resolver (`proj2aci/asset.go`),
the command runner (`RunCmdFull`), and the staging pipeline
(`Builder.Run` and its stages).  Pure string manipulation is translated
directly; filesystem and process interaction is modelled by explicit
oracles (a path-indexed filesystem view, a command-outcome function) and
by recording the performed filesystem operations as an explicit trace.

Every definition follows the Go source; deviations and abstractions are
noted in the doc comment of the definition concerned.
-/

namespace Goaci

/-! ## Go `strings` and `path/filepath` primitives (Unix rules)

The repository runs on Unix (`listSeparator` is `:` and the path
separator is `/`).  `goClean`, `goDir` and `goJoin2` are translations of
Go's `filepath.Clean`, `filepath.Dir` and the two-argument form of
`filepath.Join`.  String operations are implemented over `List Char` so
that every definition evaluates inside the kernel. -/

/-- `filepath.ListSeparator` on Unix. -/
def listSeparator : String := ":"

/-- `filepath.IsAbs` on Unix: a path is absolute when it starts with `/`. -/
def isAbs (p : String) : Bool :=
  match p.toList with
  | '/' :: _ => true
  | _ => false

/-- Split a character list on a separator character (Go `strings.Split`
restricted to a one-character separator). -/
def splitChars (sep : Char) : List Char → List (List Char)
  | [] => [[]]
  | c :: rest =>
    if c = sep then [] :: splitChars sep rest
    else
      match splitChars sep rest with
      | [] => [[c]]
      | h :: t => (c :: h) :: t

/-- `filepath.SplitList`: the empty string yields no components, otherwise
the string is split on `:`. -/
def splitList (s : String) : List String :=
  if s = "" then [] else (splitChars ':' s.toList).map String.mk

/-- Does `pat` occur as a leading segment of `l`? -/
def leadsWith : List Char → List Char → Bool
  | [], _ => true
  | _ :: _, [] => false
  | a :: pat, b :: l => a = b ∧ leadsWith pat l

/-- One left-to-right pass of Go `strings.Replace(s, old, new, -1)` for a
non-empty pattern: replace each non-overlapping occurrence of `old` by
`new`.  (Go inserts `new` at every position when `old` is empty; the
model leaves the string unchanged in that degenerate case, which never
arises: placeholder keys are non-empty.)  The `fuel` argument makes the
recursion structural; every step consumes at least one character, so any
`fuel ≥` the length of the input is exact. -/
def replaceChars (old new : List Char) : Nat → List Char → List Char
  | 0, l => l
  | _ + 1, [] => []
  | fuel + 1, c :: rest =>
    if old ≠ [] ∧ leadsWith old (c :: rest) then
      new ++ replaceChars old new fuel ((c :: rest).drop old.length)
    else
      c :: replaceChars old new fuel rest

/-- Go `strings.Replace(s, old, new, -1)`. -/
def strReplace (s old new : String) : String :=
  String.mk (replaceChars old.toList new.toList s.toList.length s.toList)

/-- The backtracking step of Go's `filepath.Clean` for a `..` element:
with the output buffer held in reverse order, pop the last character and
keep popping while the buffer is longer than `dotdot` and the character
just popped is not a separator. -/
def popToSep (dotdot : Nat) : List Char → List Char
  | [] => []
  | c :: rest => if rest.length > dotdot ∧ ¬ (c = '/') then popToSep dotdot rest else rest

/-- The `..`-element handling of Go's `filepath.Clean`: backtrack when
possible, otherwise (non-rooted) append a literal `..` and advance the
backtracking barrier. -/
def dotdotStep (rooted : Bool) (rev : List Char) (dotdot : Nat) : List Char × Nat :=
  if rev.length > dotdot then (popToSep dotdot rev, dotdot)
  else if ¬ rooted then
    let rev1 := if rev.length > 0 then '/' :: rev else rev
    let rev2 := '.' :: '.' :: rev1
    (rev2, rev2.length)
  else (rev, dotdot)

/-- Go `filepath.Clean` writes a separator before a new element unless the
buffer is still at its initial contents. -/
def sepIfNeeded (rooted : Bool) (rev : List Char) : List Char :=
  if (rooted ∧ rev.length ≠ 1) ∨ (¬ rooted ∧ rev.length ≠ 0) then '/' :: rev else rev

/-- Scanner state for `cleanLoop`: between elements, inside an element,
or after one / two leading dots of a candidate `.` / `..` element. -/
inductive CleanState where
  | normal
  | inElem
  | sawDot
  | sawDotDot

/-- The main loop of Go's `filepath.Clean`, reorganised as a state machine
consuming one character per step (the Go loop consumes a whole element per
iteration; the two are equivalent and this form evaluates inside the
kernel).  `rem` is the unread input, `rev` the output buffer in reverse
order, `dotdot` the index up to which `..` may not backtrack. -/
def cleanLoop (rooted : Bool) : List Char → CleanState → List Char → Nat → List Char
  | [], st, rev, dotdot =>
    (match st with
     | .sawDotDot => (dotdotStep rooted rev dotdot).1
     | _ => rev)
  | c :: rest, .normal, rev, dotdot =>
    if c = '/' then cleanLoop rooted rest .normal rev dotdot
    else if c = '.' then cleanLoop rooted rest .sawDot rev dotdot
    else cleanLoop rooted rest .inElem (c :: sepIfNeeded rooted rev) dotdot
  | c :: rest, .sawDot, rev, dotdot =>
    if c = '/' then cleanLoop rooted rest .normal rev dotdot
    else if c = '.' then cleanLoop rooted rest .sawDotDot rev dotdot
    else cleanLoop rooted rest .inElem (c :: '.' :: sepIfNeeded rooted rev) dotdot
  | c :: rest, .sawDotDot, rev, dotdot =>
    if c = '/' then
      let p := dotdotStep rooted rev dotdot
      cleanLoop rooted rest .normal p.1 p.2
    else cleanLoop rooted rest .inElem (c :: '.' :: '.' :: sepIfNeeded rooted rev) dotdot
  | c :: rest, .inElem, rev, dotdot =>
    if c = '/' then cleanLoop rooted rest .normal rev dotdot
    else cleanLoop rooted rest .inElem (c :: rev) dotdot

/-- Go's `filepath.Clean` (Unix). -/
def goClean (path : String) : String :=
  let cs := path.toList
  if cs = [] then "."
  else
    let rooted := cs.head? = some '/'
    let out :=
      if rooted then cleanLoop true cs.tail .normal ['/'] 1
      else cleanLoop false cs .normal [] 0
    if out = [] then "." else String.mk out.reverse

/-- Go's `filepath.Dir` (Unix): drop the final path element, then `Clean`. -/
def goDir (path : String) : String :=
  let cs := path.toList
  let kept := (cs.reverse.dropWhile (fun c => ¬ (c = '/'))).reverse
  goClean (String.mk kept)

/-- Go's `filepath.Join` with two arguments: the first non-empty element
starts the join, and the result is `Clean`ed. -/
def goJoin2 (a b : String) : String :=
  if a = "" then (if b = "" then "" else goClean b)
  else goClean (a ++ "/" ++ b)

/-! ## Placeholder substitution (`asset.go`) -/

/-- `replacePlaceholders`: replace every occurrence of every mapping key
by its value.  Go iterates over a map in unspecified order; the model
fixes the order to the list order of `mapping`. -/
def replacePlaceholders (path : String) (mapping : List (String × String)) : String :=
  mapping.foldl (fun acc pr => strReplace acc pr.1 pr.2) path

/-- `processExcludes`: substitute placeholders into each exclude once. -/
def processExcludes (excludes : List String) (mapping : List (String × String)) :
    List String :=
  excludes.map (fun ex => replacePlaceholders ex mapping)

/-- `getAssetString`: format an asset spec `aciAsset<SEP>localAsset`. -/
def getAssetString (aciAsset localAsset : String) : String :=
  aciAsset ++ listSeparator ++ localAsset

/-! ## Filesystem model

Filesystem interaction is modelled by an in-memory tree (`FsTree`) and a
path-indexed `lstat` view (`String → LstatRes`).  `FsTree` carries the
permission bits of files and directories and the unresolved target string
of symlinks; file contents are irrelevant to the properties below.
`FsForest` is the (name, subtree) list of a directory, kept as a mutual
inductive so that all recursions stay structural; `filepath.Walk` visits
directory entries in sorted name order, and the model takes the entry
list in that visit order. -/

mutual
inductive FsTree where
  | file (perm : Nat)
  | dir (perm : Nat) (entries : FsForest)
  | symlink (target : String)
  | other
deriving DecidableEq

inductive FsForest where
  | nil
  | cons (name : String) (t : FsTree) (rest : FsForest)
deriving DecidableEq
end

/-- Result of `os.Lstat` on a path: the path does not exist, stat fails
with some other error, or a node is found. -/
inductive LstatRes where
  | missing
  | statError
  | found (t : FsTree)
deriving DecidableEq

/-- A mutating filesystem operation performed by the resolver.  Each
constructor records the source node it was performed for (when there is
one) and the destination path, so that the trace identifies what was
copied where. -/
inductive FsOp where
  | mkdirAll (dest : String)
  | mkdir (src dest : String) (perm : Nat)
  | copyFile (src dest : String) (perm : Nat)
  | mklink (src dest target : String)
deriving DecidableEq

/-- The source path an operation was performed for (`none` for
`os.MkdirAll`, which has no single source node). -/
def FsOp.srcOf : FsOp → Option String
  | .mkdirAll _ => none
  | .mkdir src _ _ => some src
  | .copyFile src _ _ => some src
  | .mklink src _ _ => some src

inductive WalkErr where
  | unsupportedNode (path : String)
deriving DecidableEq

/-- Result of one `filepath.Walk` with `getCopyingWalker`: the operations
performed (in order, up to the point of failure), the additional assets
accumulated from copied regular files, and the error, if any. -/
structure WalkRes where
  ops : List FsOp
  found : List String
  err : Option WalkErr
deriving DecidableEq

/-- `path[len(src):]` of `getCopyingWalker` (Go slices bytes; paths here
are taken as character sequences). -/
def dropStr (path : String) (n : Nat) : String :=
  String.mk (path.toList.drop n)

mutual
/-- `getCopyingWalker` (with `copyTree`'s `filepath.Walk`) applied to the
node `t` found at `path`: if the path is in the exclude set the node is
skipped (for a directory, `filepath.SkipDir` skips its whole subtree);
otherwise the node is replicated at `goJoin2 dest (path minus the `src`
root)`.  Dependency discovery for a copied regular file
(`getAdditionalAssetsFor`: `getSoLibs`, interpreter discovery and the
`libnss_*` heuristic, all reading file contents and external processes)
is abstracted by the oracle `disc`.  An error aborts the walk, keeping
the operations performed so far. -/
def walkNode (disc : String → List String) (excl : List String) (src dest : String)
    (path : String) (t : FsTree) : WalkRes :=
  if path ∈ excl then ⟨[], [], none⟩
  else
    let target := goJoin2 dest (dropStr path src.length)
    match t with
    | .dir perm entries =>
      let r := walkEntries disc excl src dest path entries
      ⟨.mkdir path target perm :: r.ops, r.found, r.err⟩
    | .file perm => ⟨[.copyFile path target perm], disc path, none⟩
    | .symlink tgt => ⟨[.mklink path target tgt], [], none⟩
    | .other => ⟨[], [], some (.unsupportedNode path)⟩

/-- Walk the entries of a directory at `path` in order; a failing entry
aborts the remaining siblings (as an error returned from `filepath.Walk`
does). -/
def walkEntries (disc : String → List String) (excl : List String) (src dest : String)
    (path : String) : FsForest → WalkRes
  | .nil => ⟨[], [], none⟩
  | .cons name child rest =>
    let r := walkNode disc excl src dest (goJoin2 path name) child
    match r.err with
    | some e => ⟨r.ops, r.found, some e⟩
    | none =>
      let r2 := walkEntries disc excl src dest path rest
      ⟨r.ops ++ r2.ops, r.found ++ r2.found, r2.err⟩
end

mutual
/-- All node paths of the tree rooted at `path`, in walk (pre-)order. -/
def nodePaths (path : String) : FsTree → List String
  | .dir _ entries => path :: forestPaths path entries
  | _ => [path]

/-- All node paths of a directory's entries. -/
def forestPaths (path : String) : FsForest → List String
  | .nil => []
  | .cons name child rest => nodePaths (goJoin2 path name) child ++ forestPaths path rest
end

mutual
/-- No `other` (device/socket/fifo) node anywhere in the tree, so that the
copying walker cannot fail. -/
def supportedTree : FsTree → Bool
  | .dir _ entries => supportedForest entries
  | .other => false
  | _ => true

def supportedForest : FsForest → Bool
  | .nil => true
  | .cons _ child rest => supportedTree child ∧ supportedForest rest
end

mutual
/-- Look up the node whose walk path (starting from the root at `path`)
equals `q`; first match in pre-order. -/
def findNode (path : String) (t : FsTree) (q : String) : Option FsTree :=
  if path = q then some t
  else
    match t with
    | .dir _ entries => findForest path entries q
    | _ => none

def findForest (path : String) : FsForest → String → Option FsTree
  | .nil, _ => none
  | .cons name child rest, q =>
    match findNode (goJoin2 path name) child q with
    | some u => some u
    | none => findForest path rest q
end

/-! ## The asset resolver (`asset.go`) -/

inductive ProcErr where
  | malformedSpec (asset : String)
  | wrongACIAsset (p : String)
  | wrongLocalAsset (p : String)
  | statFailed (p : String)
  | unsupportedAsset (p : String)
  | mkdirFailed (dir : String)
  | copyFailed (asset : String)
deriving DecidableEq

/-- `validateAsset`: both halves must be absolute and the local half must
`lstat` to a directory, regular file or symlink. -/
def validateAsset (fs : String → LstatRes) (ACIAsset localAsset : String) : Option ProcErr :=
  if ¬ isAbs ACIAsset then some (.wrongACIAsset ACIAsset)
  else if ¬ isAbs localAsset then some (.wrongLocalAsset localAsset)
  else
    match fs localAsset with
    | .missing => some (.statFailed localAsset)
    | .statError => some (.statFailed localAsset)
    | .found t =>
      match t with
      | .file _ => none
      | .dir _ _ => none
      | .symlink _ => none
      | .other => some (.unsupportedAsset localAsset)

/-- Result of `processAsset`: the filesystem operations performed (also on
a failing run, up to the failure), the additional assets returned to the
worklist, and the error, if any. -/
structure ProcRes where
  ops : List FsOp
  extra : List String
  err : Option ProcErr
deriving DecidableEq

/-- `processAsset`: split the spec on the list separator (exactly two
components), substitute placeholders, validate, create the destination's
parent directory tree (`os.MkdirAll`, success given by the oracle `mkOk`)
and copy with `copyTree`.  The final catch-all arm mirrors
`filepath.Walk`'s own stat of the root and is unreachable when validation
passed (the model's `fs` is one consistent snapshot). -/
def processAsset (fs : String → LstatRes) (disc : String → List String)
    (mkOk : String → Bool) (rootfs : String) (mapping : List (String × String))
    (excludes : List String) (asset : String) : ProcRes :=
  let splitAsset := splitList asset
  if splitAsset.length ≠ 2 then ⟨[], [], some (.malformedSpec asset)⟩
  else
    let ACIAsset := replacePlaceholders (splitAsset.getD 0 "") mapping
    let localAsset := replacePlaceholders (splitAsset.getD 1 "") mapping
    match validateAsset fs ACIAsset localAsset with
    | some e => ⟨[], [], some e⟩
    | none =>
      let sub := goJoin2 rootfs (goDir ACIAsset)
      if ¬ mkOk sub then ⟨[.mkdirAll sub], [], some (.mkdirFailed sub)⟩
      else
        match fs localAsset with
        | .found t =>
          let r := walkNode disc excludes localAsset (goJoin2 rootfs ACIAsset) localAsset t
          match r.err with
          | some _ => ⟨.mkdirAll sub :: r.ops, [], some (.copyFailed asset)⟩
          | none => ⟨.mkdirAll sub :: r.ops, r.found, none⟩
        | _ => ⟨[.mkdirAll sub], [], some (.statFailed localAsset)⟩

/-- State of `PrepareAssets`' worklist loop.  `processed` is the
`processedAssets` set (as a list, most recent first); `handled` records,
in call order, the specs handed to `processAsset` (each is appended
exactly when it is marked processed); `ops` the filesystem operations
performed so far. -/
structure PrepState where
  processed : List String
  handled : List String
  ops : List FsOp
deriving DecidableEq

/-- Result of one pass over `assetsToProcess`. -/
structure RoundRes where
  st : PrepState
  next : List String
  err : Option ProcErr
deriving DecidableEq

/-- The inner loop of `PrepareAssets`: process each asset of the current
round, skipping already-processed specs, marking each remaining spec
processed and handing it to `procOne`; an error aborts the whole
resolution. -/
def prepRound (procOne : String → ProcRes) (st : PrepState) :
    List String → RoundRes
  | [] => ⟨st, [], none⟩
  | a :: rest =>
    if a ∈ st.processed then prepRound procOne st rest
    else
      let r := procOne a
      let st1 : PrepState := ⟨a :: st.processed, st.handled ++ [a], st.ops ++ r.ops⟩
      match r.err with
      | some e => ⟨st1, [], some e⟩
      | none =>
        let rr := prepRound procOne st1 rest
        ⟨rr.st, r.extra ++ rr.next, rr.err⟩

/-- The outer fixpoint loop of `PrepareAssets` (`for len(newAssets) > 0`).
The Go loop is unbounded; the model threads explicit `fuel`, and
`none` means the fuel was exhausted with the worklist still non-empty.
The termination theorem below shows a sufficient fuel in terms of the
universe of spec strings the discovery can produce. -/
def prepLoop (procOne : String → ProcRes) : Nat → PrepState → List String →
    Option (PrepState × Option ProcErr)
  | 0, _, _ => none
  | fuel + 1, st, assets =>
    if assets.isEmpty then some (st, none)
    else
      let rr := prepRound procOne st assets
      match rr.err with
      | some e => some (rr.st, some e)
      | none => prepLoop procOne fuel rr.st rr.next

/-- `PrepareAssets`: substitute placeholders into the excludes once, then
run the fixpoint worklist loop starting from the given assets with an
empty processed set. -/
def PrepareAssets (fs : String → LstatRes) (disc : String → List String)
    (mkOk : String → Bool) (fuel : Nat) (assets : List String) (rootfs : String)
    (mapping : List (String × String)) (excludes : List String) :
    Option (PrepState × Option ProcErr) :=
  prepLoop (processAsset fs disc mkOk rootfs mapping (processExcludes excludes mapping))
    fuel ⟨[], [], []⟩ assets

/-! ## Symlink chase (`getSymlinkedAssets`) -/

inductive ChaseErr where
  | tooManyLevels
  | statFailed (p : String)
deriving DecidableEq

/-- The loop of `getSymlinkedAssets`, recursing on the remaining `levels`
counter (initially `maxLevels = 100`, decremented after each symlink
hop; entering an iteration with `levels < 1` is the
too-many-levels-of-symlinks error).  Each iteration first emits the
self-mapped asset for the current path, then `lstat`s it: a missing path
or a non-symlink ends the chase successfully; a relative link target is
resolved against the link's own directory.  (A symlink's target is part
of the `FsTree` node, so `os.Readlink` cannot fail separately in the
model.) -/
def symlinkLoop (fs : String → LstatRes) : Nat → String → List String →
    Except ChaseErr (List String)
  | 0, _, _ => .error .tooManyLevels
  | levels + 1, path, assets =>
    let assets := assets ++ [getAssetString path path]
    match fs path with
    | .missing => .ok assets
    | .statError => .error (.statFailed path)
    | .found t =>
      match t with
      | .symlink symTarget =>
        let path1 := if isAbs symTarget then symTarget else goJoin2 (goDir path) symTarget
        symlinkLoop fs levels path1 assets
      | _ => .ok assets

/-- `getSymlinkedAssets`: chase a symlink chain, self-mapping every hop,
with at most 100 levels. -/
def getSymlinkedAssets (fs : String → LstatRes) (path : String) :
    Except ChaseErr (List String) :=
  symlinkLoop fs 100 path []

/-! ## Command runner (`RunCmdFull`) and shared-library discovery -/

inductive CmdErr where
  | noArgs
  | cmdNotFound
  | cmdFailed
deriving DecidableEq

/-- `RunCmdFull`: with an empty `execProg` the program is looked up on the
`$PATH` (oracle `look`; a failed lookup is `CmdNotFoundError`); a program
that runs and fails yields `CmdFailedError`.  `runR` gives the outcome
and standard output of executing a program. -/
def RunCmdFull (look : String → Option String)
    (runR : String → List String → Except Unit String)
    (execProg : String) (args : List String) : Except CmdErr String :=
  if args.length < 1 then .error .noArgs
  else
    let progE : Except CmdErr String :=
      if execProg = "" then
        match look (args.getD 0 "") with
        | none => .error .cmdNotFound
        | some p => .ok p
      else .ok execProg
    match progE with
    | .error e => .error e
    | .ok prog =>
      match runR prog args with
      | .error _ => .error .cmdFailed
      | .ok out => .ok out

/-- The whitespace class `\s` of Go's regexp (`[\t\n\f\r ]`); a newline
cannot occur inside a line. -/
def isSpaceGo (c : Char) : Bool :=
  c = ' ' ∨ c = '\t' ∨ c = '\r' ∨ c = '\x0c'

/-- Split into maximal non-whitespace runs (tokens); accumulator-based so
the recursion is structural. -/
def splitTokensRev (acc : List (List Char)) (cur : List Char) :
    List Char → List (List Char)
  | [] => if cur = [] then acc else cur.reverse :: acc
  | c :: rest =>
    if isSpaceGo c then
      if cur = [] then splitTokensRev acc [] rest
      else splitTokensRev (cur.reverse :: acc) [] rest
    else splitTokensRev acc (c :: cur) rest

def splitTokens (l : List Char) : List (List Char) :=
  (splitTokensRev [] [] l).reverse

/-- A character of the parenthesized load address: `[0-9a-fA-Fx]`. -/
def isHexAddrChar (c : Char) : Bool :=
  ('0' ≤ c ∧ c ≤ '9') ∨ ('a' ≤ c ∧ c ≤ 'f') ∨ ('A' ≤ c ∧ c ≤ 'F') ∨ c = 'x'

/-- Does the token have the form `(addr)` with a non-empty
`[0-9a-fA-Fx]+` body? -/
def isParenAddr (tok : List Char) : Bool :=
  match tok with
  | '(' :: rest =>
    rest.getLast? = some ')' ∧ rest.dropLast ≠ [] ∧ rest.dropLast.all isHexAddrChar
  | _ => false

/-- Match one line against the `ldd` output pattern
`^\t(?:\S+\s+=>\s+)?(\S+)\s+\([0-9a-fA-Fx]+\)$` and return the capture:
after the leading tab (with no whitespace directly after it and none at
the end of the line) the line is either `cap addr` or `tok => cap addr`
with the tokens separated by whitespace and `addr` a parenthesized load
address. -/
def matchLddLine (line : List Char) : Option String :=
  match line with
  | '\t' :: rest =>
    if rest.head?.elim false isSpaceGo then none
    else if rest.getLast?.elim false isSpaceGo then none
    else
      match splitTokens rest with
      | [cap, addr] => if isParenAddr addr then some (String.mk cap) else none
      | [t1, arrow, cap, addr] =>
        if t1 ≠ [] ∧ arrow = ['=', '>'] ∧ isParenAddr addr then some (String.mk cap)
        else none
      | _ => none
  | _ => none

/-- All captures of the `ldd`-output regular expression, in order
(`FindAllStringSubmatch` with the multiline anchors finds at most one
match per line). -/
def parseLdd (out : String) : List String :=
  (splitChars '\n' out.toList).filterMap matchLddLine

inductive SoErr where
  | cmd (e : CmdErr)
  | chase (e : ChaseErr)
deriving DecidableEq

/-- The per-library loop of `getSoLibs`: skip empty captures, chase each
library's symlink chain and concatenate; a chase failure aborts. -/
def soLibsFold (fs : String → LstatRes) : List String → Except ChaseErr (List String)
  | [] => .ok []
  | lib :: rest =>
    if lib = "" then soLibsFold fs rest
    else
      match getSymlinkedAssets fs lib with
      | .error e => .error e
      | .ok symlinkedAssets =>
        match soLibsFold fs rest with
        | .error e => .error e
        | .ok assets => .ok (symlinkedAssets ++ assets)

/-- `getSoLibs`: run `ldd` on the path through `RunCmdFull`.  A
`CmdFailedError` (the program ran and exited non-zero) is swallowed and
yields an empty asset list; any other runner error is propagated.  On
success the output table is parsed and every library is symlink-chased. -/
def getSoLibs (fs : String → LstatRes) (look : String → Option String)
    (runR : String → List String → Except Unit String) (path : String) :
    Except SoErr (List String) :=
  match RunCmdFull look runR "" ["ldd", path] with
  | .error e =>
    match e with
    | .cmdFailed => .ok []
    | _ => .error (.cmd e)
  | .ok out =>
    match soLibsFold fs (parseLdd out) with
    | .error e => .error (.chase e)
    | .ok assets => .ok assets

/-! ## The staging pipeline (`Builder`)

The pipeline is modelled as the `Builder.Run` control flow over abstract
stage outcomes.  The backend customization (`BuilderCustomizations`) is
an oracle record; the stages after path setup (`copyAssets`,
`prepareManifest`, `writeACI`) are represented by an effect marker and an
abstract outcome, since the claims below concern the order, presence and
cleanup behaviour of the stages, not their internals (the internals of
the copy stage are the resolver model above, those of the manifest stage
the model further down). -/

structure CommonConfiguration where
  Exec : List String
  UseBinary : String
  Assets : List String
  KeepTmpDir : Bool
  TmpDir : String
  ReuseTmpDir : String
  Project : String
deriving DecidableEq

structure CommonPaths where
  TmpDir : String
  AciDir : String
  RootFS : String
deriving DecidableEq

/-- The outcomes of the backend customization calls made by the pipeline
stages under scrutiny. -/
structure Backend where
  validateOk : Bool
  setupOk : Bool
  dirsToMake : List String
  prepareOk : Bool

/-- Environment oracles: directory-existence test, the result of
`ioutil.TempDir`, and the outcomes of the filesystem calls and of the
stages following path setup. -/
structure RunEnv where
  isDir : String → Bool
  tempDir : Except Unit String
  mkdirOk : String → Bool
  removeAllOk : String → Bool
  copyOk : Bool
  manifestOk : Bool
  writeOk : Bool

/-- Observable events of one pipeline run, in order. -/
inductive BEffect where
  | allocTmp (path : String)
  | infoPreserving (path : String)
  | removeAll (path : String)
  | mkdir (path : String)
  | prepareProject
  | copyAssets
  | prepareManifest
  | writeACI
deriving DecidableEq

inductive BErr where
  | conflictingTmpDirs
  | invalidReuseDir
  | backendValidate
  | tempDirFailed
  | backendSetup
  | removeAciFailed
  | mkdirFailed (dir : String)
  | prepareFailed
  | copyFailed
  | manifestFailed
  | writeFailed
deriving DecidableEq

/-- Modelled from the spec: the helper `DirExists` (a proj2aci utility
whose source file is not among the provided sources) — "if a reuse path
is given but does not exist as a directory, fail": an empty path
trivially passes, a non-empty path must stat to a directory.  These are
also the semantics of the repository's `dirExists` helper in the cmake
customization. -/
def DirExists (isDir : String → Bool) (path : String) : Bool :=
  if path = "" then true else isDir path

/-- `Builder.validateConfiguration`.  The Go source contains a slip,
translated faithfully: the `config.Project == ""` branch constructs an
error with `fmt.Errorf` but does not return it, so an empty project name
does not fail validation. -/
def validateConfiguration (isDir : String → Bool) (config : CommonConfiguration)
    (backendValidateOk : Bool) : Option BErr :=
  if config.TmpDir ≠ "" ∧ config.ReuseTmpDir ≠ "" ∧ config.TmpDir ≠ config.ReuseTmpDir then
    some .conflictingTmpDirs
  else if ¬ DirExists isDir config.ReuseTmpDir then some .invalidReuseDir
  else if backendValidateOk then none else some .backendValidate

/-- `Builder.setupPaths`: choose the scratch root (the explicit tmp dir
if given, else the reuse dir, else a freshly allocated temporary
directory), derive `aci` and `aci/rootfs` from it, then let the backend
set up its own paths.  The effects record the temporary-directory
allocation; a backend failure happens after a successful allocation. -/
def setupPaths (env : RunEnv) (config : CommonConfiguration) (backend : Backend) :
    List BEffect × Except BErr CommonPaths :=
  let choice : List BEffect × Except BErr String :=
    if config.TmpDir ≠ "" then ([], .ok config.TmpDir)
    else if config.ReuseTmpDir ≠ "" then ([], .ok config.ReuseTmpDir)
    else
      match env.tempDir with
      | .error _ => ([], .error .tempDirFailed)
      | .ok d => ([.allocTmp d], .ok d)
  match choice with
  | (effs, .error e) => (effs, .error e)
  | (effs, .ok tmpDir) =>
    let aciDir := goJoin2 tmpDir "aci"
    let paths : CommonPaths := ⟨tmpDir, aciDir, goJoin2 aciDir "rootfs"⟩
    if backend.setupOk then (effs, .ok paths) else (effs, .error .backendSetup)

/-- The `os.Mkdir` loop of `Builder.makeDirectories`: attempt each
directory in order; the first failure aborts. -/
def mkDirsLoop (mkdirOk : String → Bool) : List String → List BEffect × Option BErr
  | [] => ([], none)
  | dir :: rest =>
    if mkdirOk dir then
      let r := mkDirsLoop mkdirOk rest
      (.mkdir dir :: r.1, r.2)
    else ([.mkdir dir], some (.mkdirFailed dir))

/-- `Builder.makeDirectories`: always `aci` and `aci/rootfs`; when not
reusing, additionally the backend's directories and (for an explicit tmp
dir) the scratch root itself. -/
def makeDirectories (env : RunEnv) (config : CommonConfiguration) (backend : Backend)
    (paths : CommonPaths) : List BEffect × Option BErr :=
  let toMake := [paths.AciDir, paths.RootFS] ++
    (if config.ReuseTmpDir = "" then
      backend.dirsToMake ++ (if config.TmpDir ≠ "" then [paths.TmpDir] else [])
    else [])
  mkDirsLoop env.mkdirOk toMake

/-- The directory (re-)creation stage of the body of `Builder.Run`: in
reuse mode remove the `aci` subtree, then recreate the directories (the
project-preparation stage is not invoked); otherwise create the
directories and prepare the project. -/
def stagePrep (env : RunEnv) (config : CommonConfiguration) (backend : Backend)
    (paths : CommonPaths) : List BEffect × Option BErr :=
  if config.ReuseTmpDir ≠ "" then
    if env.removeAllOk paths.AciDir then
      let r := makeDirectories env config backend paths
      (.removeAll paths.AciDir :: r.1, r.2)
    else ([.removeAll paths.AciDir], some .removeAciFailed)
  else
    let r := makeDirectories env config backend paths
    match r.2 with
    | some e => (r.1, some e)
    | none =>
      (r.1 ++ [.prepareProject], if backend.prepareOk then none else some .prepareFailed)

/-- The trailing stages of `Builder.Run`: copy assets, assemble the
manifest, write the image, each short-circuiting on error. -/
def stageTail (env : RunEnv) : List BEffect × Option BErr :=
  if ¬ env.copyOk then ([.copyAssets], some .copyFailed)
  else if ¬ env.manifestOk then ([.copyAssets, .prepareManifest], some .manifestFailed)
  else if ¬ env.writeOk then
    ([.copyAssets, .prepareManifest, .writeACI], some .writeFailed)
  else ([.copyAssets, .prepareManifest, .writeACI], none)

/-- The body of `Builder.Run` after the keep-flag check: the directory
stage, then (unless it failed) the trailing stages. -/
def runBody (env : RunEnv) (config : CommonConfiguration) (backend : Backend)
    (paths : CommonPaths) : List BEffect × Except BErr Unit :=
  let s1 := stagePrep env config backend paths
  match s1.2 with
  | some e => (s1.1, .error e)
  | none =>
    let s2 := stageTail env
    (s1.1 ++ s2.1, match s2.2 with | some e => .error e | none => .ok ())

/-- `Builder.Run`: validate, set up paths, then — and only then — either
report the scratch directory as preserved (keep flag set) or register the
deferred `os.RemoveAll(paths.TmpDir)`, which runs at every exit of the
remaining body and is therefore the last effect of the run.  A failure
before or inside `setupPaths` returns without the deferred removal ever
being registered. -/
def run (env : RunEnv) (config : CommonConfiguration) (backend : Backend) :
    List BEffect × Except BErr Unit :=
  match validateConfiguration env.isDir config backend.validateOk with
  | some e => ([], .error e)
  | none =>
    match setupPaths env config backend with
    | (effs, .error e) => (effs, .error e)
    | (effs, .ok paths) =>
      let keepEffs : List BEffect :=
        if config.KeepTmpDir then [.infoPreserving paths.TmpDir] else []
      let body := runBody env config backend paths
      let tail :=
        if config.KeepTmpDir then body.1 else body.1 ++ [.removeAll paths.TmpDir]
      (effs ++ keepEffs ++ tail, body.2)

/-! ## Manifest assembly (`Builder.prepareManifest`, `getLabels`,
`getVCSLabel`) -/

structure Label where
  name : String
  value : String
deriving DecidableEq

inductive MErr where
  | labelFailed
  | repoPathFailed
  | vcsInfoFailed
  | invalidVCSLabel
  | imageNameFailed
deriving DecidableEq

/-- `newLabel`: wrap `types.NewACName` of the external manifest schema
library, modelled by the validity oracle `acOk`. -/
def newLabel (acOk : String → Bool) (name value : String) : Except MErr Label :=
  if acOk name then .ok ⟨name, value⟩ else .error .labelFailed

/-- `Builder.getVCSLabel`: ask the backend for the repository path; an
empty path yields no label.  Otherwise read the VCS info (`GetVCSInfo`,
whose source file is not among the provided sources; modelled from the
spec as an oracle returning the VCS kind identifier and revision string)
and validate the name with `types.NewACName` — a validation failure is
returned as an error. -/
def getVCSLabel (acOk : String → Bool) (repoPath : Except Unit String)
    (vcsInfo : String → Except Unit (String × String)) : Except MErr (Option Label) :=
  match repoPath with
  | .error _ => .error .repoPathFailed
  | .ok rp =>
    if rp = "" then .ok none
    else
      match vcsInfo rp with
      | .error _ => .error .vcsInfoFailed
      | .ok nv =>
        if acOk nv.1 then .ok (some ⟨nv.1, nv.2⟩) else .error .invalidVCSLabel

/-- `Builder.getLabels`: the arch and os labels, then the optional VCS
label; every failure, including an invalid VCS label name, is
propagated. -/
def getLabels (acOk : String → Bool) (goarch goos : String)
    (repoPath : Except Unit String)
    (vcsInfo : String → Except Unit (String × String)) : Except MErr (List Label) :=
  match newLabel acOk "arch" goarch with
  | .error e => .error e
  | .ok arch =>
    match newLabel acOk "os" goos with
    | .error e => .error e
    | .ok osl =>
      match getVCSLabel acOk repoPath vcsInfo with
      | .error e => .error e
      | .ok none => .ok [arch, osl]
      | .ok (some l) => .ok [arch, osl, l]

structure Manifest where
  name : String
  labels : List Label
deriving DecidableEq

/-- `Builder.prepareManifest`: image name from the backend, labels from
`getLabels`; a failure in either aborts manifest assembly (no manifest is
produced). -/
def prepareManifest (acOk : String → Bool) (imageACName : Except Unit String)
    (goarch goos : String) (repoPath : Except Unit String)
    (vcsInfo : String → Except Unit (String × String)) : Except MErr Manifest :=
  match imageACName with
  | .error _ => .error .imageNameFailed
  | .ok nm =>
    match getLabels acOk goarch goos repoPath vcsInfo with
    | .error e => .error e
    | .ok ls => .ok ⟨nm, ls⟩

/-- The 100-link chain `/l0 → /l1 → ⋯ → /l99 → /l100` with `/l100` a
regular file, as an `lstat` view. -/
def chainFs : String → LstatRes := fun p =>
  match (List.range 100).find? (fun i => p = "/l" ++ toString i) with
  | some i => .found (.symlink ("/l" ++ toString (i + 1)))
  | none => if p = "/l100" then .found (.file 420) else .missing

/-- A sample tree for the C3 witness: `/src` with file `a`, subdirectory
`sub` containing file `b`, and symlink `z`. -/
def tC3 : FsTree :=
  .dir 493 (.cons "a" (.file 420)
    (.cons "sub" (.dir 493 (.cons "b" (.file 420) .nil))
      (.cons "z" (.symlink "a") .nil)))

/-! ## Theorems -/

/-- C4: for every spec string that does not split into exactly two
components on the host path-list separator, `processOne`
(`processAsset`) returns the malformed-spec error having performed no
filesystem operation (empty operation trace, so the destination tree is
unchanged) and having discovered no further assets. -/
theorem C4_malformed_spec_no_fs_ops (fs : String → LstatRes) (disc : String → List String)
    (mkOk : String → Bool) (rootfs : String) (mapping : List (String × String))
    (excludes : List String) (asset : String)
    (h : (splitList asset).length ≠ 2) :
    processAsset fs disc mkOk rootfs mapping excludes asset =
      ⟨[], [], some (.malformedSpec asset)⟩ := by
  unfold processAsset
  simp [h]

/-- Witness for C4 at the spec string `"/only/one/path"`, which splits
into one component. -/
theorem C4_witness :
    (splitList "/only/one/path").length ≠ 2 ∧
      processAsset (fun _ => .missing) (fun _ => []) (fun _ => true) "/rootfs" [] []
        "/only/one/path" = ⟨[], [], some (.malformedSpec "/only/one/path")⟩ :=
  ⟨by decide,
   C4_malformed_spec_no_fs_ops (fun _ => .missing) (fun _ => []) (fun _ => true)
     "/rootfs" [] [] "/only/one/path" (by decide)⟩

/-- C8 (code bug): `Builder.validateConfiguration` does **not** fail on an
empty project identifier — the Go source constructs the error with
`fmt.Errorf` but omits the `return`, so the error is discarded and
validation succeeds (first conjunct, evaluating the translation at the
failing input).  The other two failure conditions of the claim do hold:
differing explicit scratch and reuse directories fail, and a supplied
reuse path that is not a directory fails. -/
theorem C8_empty_project_passes_validation :
    validateConfiguration (fun _ => true) ⟨[], "", [], false, "", "", ""⟩ true = none ∧
    validateConfiguration (fun _ => true) ⟨[], "", [], false, "/a", "/b", "p"⟩ true =
      some .conflictingTmpDirs ∧
    validateConfiguration (fun _ => false) ⟨[], "", [], false, "", "/r", "p"⟩ true =
      some .invalidReuseDir := by
  exact ⟨by decide, by decide, by decide⟩

/-- Counterexample to C9 as stated: with a repository path reported, VCS
info `("vcs-git!", "abc")` whose label name fails the AC-name validation
(here only `arch` and `os` are valid names), label assembly — and with it
manifest assembly — fails with the invalid-VCS-label error instead of
succeeding with a warning and the label omitted. -/
theorem C9_counterexample :
    getLabels (fun s => decide (s = "arch" ∨ s = "os")) "amd64" "linux"
      (.ok "/repo") (fun _ => .ok ("vcs-git!", "abc")) = .error .invalidVCSLabel ∧
    prepareManifest (fun s => decide (s = "arch" ∨ s = "os")) (.ok "img") "amd64" "linux"
      (.ok "/repo") (fun _ => .ok ("vcs-git!", "abc")) = .error .invalidVCSLabel :=
  ⟨rfl, rfl⟩

/-- C9 amended: when the backend reports a version-controlled project
source path and the derived VCS label name fails the manifest schema's
allowed-name validation, the failure **is** propagated as a fatal error:
`getLabels` and `prepareManifest` return the invalid-VCS-label error, no
manifest is produced, and no label is silently omitted. -/
theorem C9_invalid_vcs_label_is_fatal (acOk : String → Bool) (goarch goos : String)
    (imageACName : Except Unit String) (nm : String)
    (repoPath : Except Unit String) (rp : String)
    (vcsInfo : String → Except Unit (String × String)) (n v : String)
    (harch : acOk "arch" = true) (hos : acOk "os" = true)
    (himg : imageACName = .ok nm)
    (hrepo : repoPath = .ok rp) (hrp : rp ≠ "")
    (hinfo : vcsInfo rp = .ok (n, v)) (hbad : acOk n = false) :
    getLabels acOk goarch goos repoPath vcsInfo = .error .invalidVCSLabel ∧
    prepareManifest acOk imageACName goarch goos repoPath vcsInfo =
      .error .invalidVCSLabel := by
  have hl : getLabels acOk goarch goos repoPath vcsInfo = .error .invalidVCSLabel := by
    unfold getLabels newLabel getVCSLabel
    simp [harch, hos, hrepo, hrp, hinfo, hbad]
  refine ⟨hl, ?_⟩
  unfold prepareManifest
  simp [himg, hl]

/-- Witness for the amended C9 at concrete oracles. -/
theorem C9_witness :
    getLabels (fun s => decide (s = "arch" ∨ s = "os")) "amd64" "linux"
      (.ok "/r") (fun _ => .ok ("bad name", "v1")) = .error .invalidVCSLabel ∧
    prepareManifest (fun s => decide (s = "arch" ∨ s = "os")) (.ok "img") "amd64" "linux"
      (.ok "/r") (fun _ => .ok ("bad name", "v1")) = .error .invalidVCSLabel :=
  C9_invalid_vcs_label_is_fatal (fun s => decide (s = "arch" ∨ s = "os")) "amd64" "linux"
    (.ok "img") "img" (.ok "/r") "/r" (fun _ => .ok ("bad name", "v1")) "bad name" "v1"
    (by decide) (by decide) rfl rfl (by decide) rfl (by decide)

/-- A failing per-library loop of `getSoLibs` pins a library in the list
whose symlink chase failed. -/
theorem soLibsFold_error_mem (fs : String → LstatRes) :
    ∀ (libs : List String) (e : ChaseErr), soLibsFold fs libs = .error e →
      ∃ lib ∈ libs, ∃ ce, getSymlinkedAssets fs lib = .error ce := by
  intro libs
  induction libs with
  | nil => intro e h; simp [soLibsFold] at h
  | cons lib rest ih =>
    intro e h
    unfold soLibsFold at h
    by_cases hl : lib = ""
    · simp only [if_pos hl] at h
      obtain ⟨l, hmem, hc⟩ := ih e h
      exact ⟨l, by simp [hmem], hc⟩
    · simp only [if_neg hl] at h
      cases hc : getSymlinkedAssets fs lib with
      | error ce => exact ⟨lib, by simp, ce, hc⟩
      | ok as =>
        rw [hc] at h
        cases hr : soLibsFold fs rest with
        | error e2 =>
          obtain ⟨l, hmem, hcc⟩ := ih e2 hr
          exact ⟨l, by simp [hmem], hcc⟩
        | ok as2 => rw [hr] at h; simp at h

/-- C5: `getSoLibs` propagates an error iff the dependency lister cannot
be found on the `$PATH` or a later symlink-chase step fails; a lister
that runs and exits non-zero (`CmdFailedError`) yields the empty asset
list with no error. -/
theorem C5_so_libs_error_iff (fs : String → LstatRes) (look : String → Option String)
    (runR : String → List String → Except Unit String) (path : String) :
    (look "ldd" = none → getSoLibs fs look runR path = .error (.cmd .cmdNotFound)) ∧
    (∀ prog, look "ldd" = some prog → runR prog ["ldd", path] = .error () →
      getSoLibs fs look runR path = .ok []) ∧
    (∀ e, getSoLibs fs look runR path = .error e →
      look "ldd" = none ∨
        ∃ prog out, look "ldd" = some prog ∧ runR prog ["ldd", path] = .ok out ∧
          ∃ lib ∈ parseLdd out, ∃ ce, getSymlinkedAssets fs lib = .error ce) := by
  refine ⟨?_, ?_, ?_⟩
  · intro h
    unfold getSoLibs RunCmdFull
    simp [h]
  · intro prog hlook hrun
    unfold getSoLibs RunCmdFull
    simp [hlook, hrun]
  · intro e h
    cases hlook : look "ldd" with
    | none => exact Or.inl rfl
    | some prog =>
      right
      cases hrun : runR prog ["ldd", path] with
      | error u =>
        have hok : getSoLibs fs look runR path = .ok [] := by
          unfold getSoLibs RunCmdFull; simp [hlook, hrun]
        rw [hok] at h; exact absurd h (by simp)
      | ok out =>
        cases hf : soLibsFold fs (parseLdd out) with
        | error ce =>
          exact ⟨prog, out, rfl, hrun, soLibsFold_error_mem fs (parseLdd out) ce hf⟩
        | ok as =>
          have hok : getSoLibs fs look runR path = .ok as := by
            unfold getSoLibs RunCmdFull; simp [hlook, hrun, hf]
          rw [hok] at h; exact absurd h (by simp)

/-- Witness for C5: a missing `ldd` is fatal; an `ldd` that runs and
fails yields the empty list. -/
theorem C5_witness :
    getSoLibs (fun _ => .missing) (fun _ => none) (fun _ _ => .error ()) "/bin/app" =
      .error (.cmd .cmdNotFound) ∧
    getSoLibs (fun _ => .missing) (fun _ => some "/usr/bin/ldd") (fun _ _ => .error ())
      "/bin/app" = .ok [] :=
  ⟨(C5_so_libs_error_iff (fun _ => .missing) (fun _ => none) (fun _ _ => .error ())
      "/bin/app").1 rfl,
   (C5_so_libs_error_iff (fun _ => .missing) (fun _ => some "/usr/bin/ldd")
      (fun _ _ => .error ()) "/bin/app").2.1 "/usr/bin/ldd" rfl rfl⟩

/-! ### C2: symlink chase -/

theorem symlinkLoop_succ_missing (fs : String → LstatRes) (lv : Nat) (path : String)
    (acc : List String) (h : fs path = .missing) :
    symlinkLoop fs (lv + 1) path acc = .ok (acc ++ [getAssetString path path]) := by
  unfold symlinkLoop
  rw [h]

theorem symlinkLoop_succ_nonlink (fs : String → LstatRes) (lv : Nat) (path : String)
    (acc : List String) (t : FsTree) (h : fs path = .found t)
    (hnt : ∀ tgt, t ≠ .symlink tgt) :
    symlinkLoop fs (lv + 1) path acc = .ok (acc ++ [getAssetString path path]) := by
  unfold symlinkLoop
  rw [h]
  cases t with
  | symlink tgt => exact absurd rfl (hnt tgt)
  | file perm => rfl
  | dir perm entries => rfl
  | other => rfl

theorem symlinkLoop_succ_abs (fs : String → LstatRes) (lv : Nat) (path : String)
    (acc : List String) (tgt : String) (h : fs path = .found (.symlink tgt))
    (habs : isAbs tgt = true) :
    symlinkLoop fs (lv + 1) path acc =
      symlinkLoop fs lv tgt (acc ++ [getAssetString path path]) := by
  conv_lhs => unfold symlinkLoop
  rw [h]
  simp [habs]

/-- Successful chase of a chain of absolute-target symlinks: starting at
index `s` with more fuel than remaining links, the loop emits one
self-mapped asset per hop plus the terminal node, in chain order. -/
theorem symlinkLoop_chain_ok (fs : String → LstatRes) (p : Nat → String) (N : Nat)
    (hlink : ∀ i, i < N → fs (p i) = .found (.symlink (p (i + 1))))
    (habs : ∀ i, i < N → isAbs (p (i + 1)) = true)
    (hterm : fs (p N) = .missing ∨ ∃ t, fs (p N) = .found t ∧ ∀ tgt, t ≠ .symlink tgt) :
    ∀ (levels s : Nat) (acc : List String), s ≤ N → N - s < levels →
      symlinkLoop fs levels (p s) acc =
        .ok (acc ++ (List.range (N - s + 1)).map
          (fun i => getAssetString (p (s + i)) (p (s + i)))) := by
  intro levels
  induction levels with
  | zero => intro s acc hs h; omega
  | succ lv ih =>
    intro s acc hs hlt
    by_cases hsN : s = N
    · have hone : N - s + 1 = 1 := by omega
      rw [hone]
      have hmap : (List.range 1).map (fun i => getAssetString (p (s + i)) (p (s + i))) =
          [getAssetString (p s) (p s)] := rfl
      rw [hmap, hsN]
      rcases hterm with hmiss | ⟨t, hft, hnt⟩
      · exact symlinkLoop_succ_missing fs lv (p N) acc hmiss
      · exact symlinkLoop_succ_nonlink fs lv (p N) acc t hft hnt
    · have hsN' : s < N := lt_of_le_of_ne hs hsN
      rw [symlinkLoop_succ_abs fs lv (p s) acc (p (s + 1)) (hlink s hsN') (habs s hsN')]
      rw [ih (s + 1) (acc ++ [getAssetString (p s) (p s)]) (by omega) (by omega)]
      congr 1
      have hk : N - s + 1 = (N - (s + 1) + 1) + 1 := by omega
      conv_rhs => rw [hk, List.range_succ_eq_map, List.map_cons, List.map_map]
      rw [List.append_assoc]
      congr 1
      rw [List.singleton_append]
      have hfun : ((fun i => getAssetString (p (s + i)) (p (s + i))) ∘ Nat.succ) =
          (fun i => getAssetString (p (s + 1 + i)) (p (s + 1 + i))) := by
        funext i
        simp only [Function.comp_apply, Nat.succ_eq_add_one]
        have h2 : s + (i + 1) = s + 1 + i := by omega
        rw [h2]
      rw [hfun]
      rfl

/-- A chain that is all symlinks for as many hops as there is fuel makes
the chase fail with the too-many-levels error. -/
theorem symlinkLoop_chain_err (fs : String → LstatRes) (p : Nat → String) :
    ∀ (levels s : Nat) (acc : List String),
      (∀ i, s ≤ i → i < s + levels → fs (p i) = .found (.symlink (p (i + 1)))) →
      (∀ i, s ≤ i → i < s + levels → isAbs (p (i + 1)) = true) →
      symlinkLoop fs levels (p s) acc = .error .tooManyLevels := by
  intro levels
  induction levels with
  | zero => intro s acc _ _; rfl
  | succ lv ih =>
    intro s acc hl ha
    rw [symlinkLoop_succ_abs fs lv (p s) acc (p (s + 1))
      (hl s le_rfl (by omega)) (ha s le_rfl (by omega))]
    exact ih (s + 1) _ (fun i h1 h2 => hl i (by omega) (by omega))
      (fun i h1 h2 => ha i (by omega) (by omega))

/-- C2 amended: applied to a chain of `N` symlinks (absolute targets)
ending in a non-symlink or missing node, `getSymlinkedAssets` returns
exactly the `N + 1` self-mapped assets in chain order when `N ≤ 99`, but
fails with the too-many-levels (cycle) error on any chain of 100 or more
links.  (The claim as stated puts the boundary at `N ≤ 100`: the loop
visits at most `maxLevels = 100` nodes, so a chain of exactly 100 links
— 101 nodes — already fails; see the counterexample.) -/
theorem C2_symlink_chase_amended (fs : String → LstatRes) (p : Nat → String) (N : Nat)
    (hlink : ∀ i, i < N → fs (p i) = .found (.symlink (p (i + 1))))
    (habs : ∀ i, i < N → isAbs (p (i + 1)) = true)
    (hterm : fs (p N) = .missing ∨ ∃ t, fs (p N) = .found t ∧ ∀ tgt, t ≠ .symlink tgt) :
    (N ≤ 99 → getSymlinkedAssets fs (p 0) =
      .ok ((List.range (N + 1)).map (fun i => getAssetString (p i) (p i)))) ∧
    (100 ≤ N → getSymlinkedAssets fs (p 0) = .error .tooManyLevels) := by
  constructor
  · intro hN
    have h := symlinkLoop_chain_ok fs p N hlink habs hterm 100 0 [] (by omega) (by omega)
    simpa [getSymlinkedAssets] using h
  · intro hN
    exact symlinkLoop_chain_err fs p 100 0 []
      (fun i h1 h2 => hlink i (by omega)) (fun i h1 h2 => habs i (by omega))

/-- Witness for the amended C2: a chain of 2 symlinks ending in a regular
file yields 3 self-mapped assets. -/
theorem C2_witness :
    getSymlinkedAssets
      (fun q =>
        if q = "/w0" then .found (.symlink "/w1")
        else if q = "/w1" then .found (.symlink "/w2")
        else if q = "/w2" then .found (.file 420)
        else .missing)
      "/w0" = .ok ["/w0:/w0", "/w1:/w1", "/w2:/w2"] := by
  have h := (C2_symlink_chase_amended
      (fun q =>
        if q = "/w0" then .found (.symlink "/w1")
        else if q = "/w1" then .found (.symlink "/w2")
        else if q = "/w2" then .found (.file 420)
        else .missing)
      (fun i => "/w" ++ toString i) 2
      (by intro i hi; interval_cases i <;> rfl)
      (by intro i hi; interval_cases i <;> rfl)
      (Or.inr ⟨.file 420, rfl, fun tgt h => FsTree.noConfusion h⟩)).1 (by omega)
  exact h

/-- Counterexample to C2 as stated: on the 100-link chain of `chainFs`
(`N = 100 ≤ 100`, ending in a regular file) the chase does **not**
return the 101 self-mapped assets the claim predicts; it fails with the
too-many-levels error, because the loop visits at most 100 nodes. -/
theorem C2_counterexample :
    getSymlinkedAssets chainFs "/l0" = .error .tooManyLevels := by
  rfl

/-! ### C6, C7: pipeline cleanup and reuse-mode frame -/

/-- Every effect of the `os.Mkdir` loop is a `mkdir`. -/
theorem mkDirsLoop_effects (mkdirOk : String → Bool) :
    ∀ (l : List String) (e : BEffect), e ∈ (mkDirsLoop mkdirOk l).1 → ∃ d, e = .mkdir d := by
  intro l
  induction l with
  | nil => intro e h; simp [mkDirsLoop] at h
  | cons dir rest ih =>
    intro e h
    unfold mkDirsLoop at h
    by_cases hd : mkdirOk dir
    · simp only [hd, if_pos] at h
      rcases List.mem_cons.mp h with h | h
      · exact ⟨dir, h⟩
      · exact ih e h
    · simp only [hd, Bool.false_eq_true, if_neg, not_false_eq_true,
        List.mem_singleton] at h
      exact ⟨dir, h⟩

/-- Every effect of `makeDirectories` is a `mkdir`. -/
theorem makeDirectories_effects (env : RunEnv) (config : CommonConfiguration)
    (backend : Backend) (paths : CommonPaths) (e : BEffect)
    (h : e ∈ (makeDirectories env config backend paths).1) : ∃ d, e = .mkdir d := by
  unfold makeDirectories at h
  exact mkDirsLoop_effects env.mkdirOk _ e h

/-- The trailing stages produce only their three stage markers. -/
theorem stageTail_effects (env : RunEnv) :
    ∀ e ∈ (stageTail env).1,
      e = BEffect.copyAssets ∨ e = .prepareManifest ∨ e = .writeACI := by
  intro e he
  unfold stageTail at he
  split_ifs at he <;>
    simp only [List.mem_cons, List.mem_singleton, List.not_mem_nil, or_false] at he <;>
    tauto

/-- The directory stage produces only the image-staging removal, `mkdir`s
and the project-preparation marker. -/
theorem stagePrep_effects (env : RunEnv) (config : CommonConfiguration)
    (backend : Backend) (paths : CommonPaths) :
    ∀ e ∈ (stagePrep env config backend paths).1,
      e = .removeAll paths.AciDir ∨ (∃ d, e = .mkdir d) ∨ e = .prepareProject := by
  intro e he
  have hmk := makeDirectories_effects env config backend paths
  unfold stagePrep at he
  rcases hmd : makeDirectories env config backend paths with ⟨mdEffs, mdErr⟩
  rw [hmd] at he
  have hmk1 : ∀ x ∈ mdEffs, ∃ d, x = BEffect.mkdir d := by
    intro x hx
    exact hmk x (by rw [hmd]; exact hx)
  split_ifs at he with hr hrm hp
  · rcases List.mem_cons.mp he with h | h
    · exact Or.inl h
    · exact Or.inr (Or.inl (hmk1 e h))
  · exact Or.inl (List.mem_singleton.mp he)
  · cases mdErr with
    | some err => exact Or.inr (Or.inl (hmk1 e he))
    | none =>
      rcases List.mem_append.mp he with h | h
      · exact Or.inr (Or.inl (hmk1 e h))
      · exact Or.inr (Or.inr (List.mem_singleton.mp h))
  · cases mdErr with
    | some err => exact Or.inr (Or.inl (hmk1 e he))
    | none =>
      rcases List.mem_append.mp he with h | h
      · exact Or.inr (Or.inl (hmk1 e h))
      · exact Or.inr (Or.inr (List.mem_singleton.mp h))

/-- Shape of the effects of the pipeline body: a removal of the
image-staging directory, directory creations, and the four stage
markers. -/
theorem runBody_effects_shape (env : RunEnv) (config : CommonConfiguration)
    (backend : Backend) (paths : CommonPaths) :
    ∀ e ∈ (runBody env config backend paths).1,
      e = .removeAll paths.AciDir ∨ (∃ d, e = .mkdir d) ∨ e = .prepareProject ∨
        e = .copyAssets ∨ e = .prepareManifest ∨ e = .writeACI := by
  intro e he
  have hp := stagePrep_effects env config backend paths
  have ht := stageTail_effects env
  unfold runBody at he
  rcases hs1 : stagePrep env config backend paths with ⟨s1e, s1err⟩
  rw [hs1] at he
  have hp1 : ∀ x ∈ s1e, x = BEffect.removeAll paths.AciDir ∨ (∃ d, x = .mkdir d) ∨
      x = .prepareProject := by
    intro x hx
    exact hp x (by rw [hs1]; exact hx)
  cases s1err with
  | some err => rcases hp1 e he with h1 | h1 | h1 <;> tauto
  | none =>
    rcases hs2 : stageTail env with ⟨s2e, s2err⟩
    rw [hs2] at he
    rcases List.mem_append.mp he with h | h
    · rcases hp1 e h with h1 | h1 | h1 <;> tauto
    · have h2 := ht e (by rw [hs2]; exact h)
      rcases h2 with h1 | h1 | h1 <;> tauto

/-- `setupPaths` performs at most one effect: the allocation of a fresh
temporary directory. -/
theorem setupPaths_effects (env : RunEnv) (config : CommonConfiguration) (backend : Backend) :
    (setupPaths env config backend).1 = [] ∨
      ∃ d, (setupPaths env config backend).1 = [.allocTmp d] := by
  unfold setupPaths
  rcases ht : env.tempDir with u | d <;> split_ifs <;> simp

/-- Counterexample to C6 as stated: with no explicit or reuse directory,
a successful temporary-directory allocation (`/tmp/x`), the keep flag
unset and a backend whose `SetupPaths` fails, the pipeline exits with the
backend-setup error having allocated the scratch directory but without
ever removing it — the deferred removal is registered only after
`setupPaths` has returned. -/
theorem C6_counterexample :
    (run ⟨fun _ => true, .ok "/tmp/x", fun _ => true, fun _ => true, true, true, true⟩
        ⟨[], "", [], false, "", "", "p"⟩ ⟨true, false, [], true⟩).1 =
      [.allocTmp "/tmp/x"] ∧
    (run ⟨fun _ => true, .ok "/tmp/x", fun _ => true, fun _ => true, true, true, true⟩
        ⟨[], "", [], false, "", "", "p"⟩ ⟨true, false, [], true⟩).2 =
      .error .backendSetup ∧
    BEffect.removeAll "/tmp/x" ∉
      (run ⟨fun _ => true, .ok "/tmp/x", fun _ => true, fun _ => true, true, true, true⟩
        ⟨[], "", [], false, "", "", "p"⟩ ⟨true, false, [], true⟩).1 := by
  refine ⟨rfl, rfl, ?_⟩
  decide

/-- C6 amended: once `setupPaths` has returned successfully, every exit
path of the remaining pipeline removes the scratch directory as its final
effect when the keep flag is unset; when the keep flag is set the scratch
directory is never removed and its path is reported.  (The claim as
stated also covers failures *during* path setup after the scratch
directory has been allocated; there the code exits without removing it —
see the counterexample.) -/
theorem C6_cleanup_policy_amended (env : RunEnv) (config : CommonConfiguration)
    (backend : Backend) (paths : CommonPaths) (effs : List BEffect)
    (hval : validateConfiguration env.isDir config backend.validateOk = none)
    (hsetup : setupPaths env config backend = (effs, .ok paths))
    (hne : paths.AciDir ≠ paths.TmpDir) :
    (config.KeepTmpDir = false →
      ∃ pre, (run env config backend).1 = pre ++ [.removeAll paths.TmpDir]) ∧
    (config.KeepTmpDir = true →
      BEffect.removeAll paths.TmpDir ∉ (run env config backend).1 ∧
      BEffect.infoPreserving paths.TmpDir ∈ (run env config backend).1) := by
  have hrun : run env config backend =
      (effs ++ (if config.KeepTmpDir then [BEffect.infoPreserving paths.TmpDir] else []) ++
        (if config.KeepTmpDir then (runBody env config backend paths).1
          else (runBody env config backend paths).1 ++ [.removeAll paths.TmpDir]),
        (runBody env config backend paths).2) := by
    unfold run
    rw [hval, hsetup]
  constructor
  · intro hk
    rw [hrun]
    simp only [hk, Bool.false_eq_true, if_neg, not_false_eq_true, if_false]
    exact ⟨effs ++ [] ++ (runBody env config backend paths).1, by simp⟩
  · intro hk
    rw [hrun]
    simp only [hk, if_true, if_pos]
    constructor
    · intro hmem
      rcases List.mem_append.mp hmem with h | h
      · rcases List.mem_append.mp h with h1 | h1
        · have h2 := setupPaths_effects env config backend
          rw [hsetup] at h2
          rcases h2 with h2 | ⟨d, h2⟩ <;> simp only at h2 <;> rw [h2] at h1 <;> simp at h1
        · simp at h1
      · rcases runBody_effects_shape env config backend paths _ h with
          h1 | ⟨d, h1⟩ | h1 | h1 | h1 | h1
        · have h2 : paths.TmpDir = paths.AciDir := by
            injection h1
          exact hne h2.symm
        all_goals simp at h1
    · simp

/-- Witness for the amended C6: with an explicit scratch directory `/t`
and a failing image-write stage, the run's final effect is the removal of
`/t`. -/
theorem C6_witness :
    ∃ pre, (run ⟨fun _ => true, .ok "/tmp/x", fun _ => true, fun _ => true, true, true, false⟩
        ⟨[], "", [], false, "/t", "", "p"⟩ ⟨true, true, [], true⟩).1 =
      pre ++ [.removeAll "/t"] :=
  (C6_cleanup_policy_amended
    ⟨fun _ => true, .ok "/tmp/x", fun _ => true, fun _ => true, true, true, false⟩
    ⟨[], "", [], false, "/t", "", "p"⟩ ⟨true, true, [], true⟩
    ⟨"/t", "/t/aci", "/t/aci/rootfs"⟩ [] (by decide) rfl (by decide)).1 rfl

/-- In reuse mode only `aci` and `aci/rootfs` are (re)created. -/
theorem makeDirectories_reuse (env : RunEnv) (config : CommonConfiguration)
    (backend : Backend) (paths : CommonPaths)
    (hreuse : config.ReuseTmpDir ≠ "")
    (ha : env.mkdirOk paths.AciDir = true) (hrfs : env.mkdirOk paths.RootFS = true) :
    makeDirectories env config backend paths =
      ([.mkdir paths.AciDir, .mkdir paths.RootFS], none) := by
  unfold makeDirectories mkDirsLoop
  simp [hreuse, ha, hrfs, mkDirsLoop]

/-- In reuse mode the directory stage removes the image-staging subtree
and recreates exactly `aci` and `aci/rootfs`. -/
theorem stagePrep_reuse (env : RunEnv) (config : CommonConfiguration)
    (backend : Backend) (paths : CommonPaths)
    (hreuse : config.ReuseTmpDir ≠ "") (hrm : env.removeAllOk paths.AciDir = true)
    (ha : env.mkdirOk paths.AciDir = true) (hrfs : env.mkdirOk paths.RootFS = true) :
    stagePrep env config backend paths =
      ([.removeAll paths.AciDir, .mkdir paths.AciDir, .mkdir paths.RootFS], none) := by
  unfold stagePrep
  rw [makeDirectories_reuse env config backend paths hreuse ha hrfs]
  simp [hreuse, hrm]

/-- In reuse mode `setupPaths` allocates nothing. -/
theorem setupPaths_reuse_no_alloc (env : RunEnv) (config : CommonConfiguration)
    (backend : Backend) (hreuse : config.ReuseTmpDir ≠ "") :
    (setupPaths env config backend).1 = [] := by
  unfold setupPaths
  split_ifs <;> simp [hreuse]

/-- C7 amended: in a reuse-mode pipeline run, before the copy stage the
only filesystem effects are the removal of the image-staging subtree and
the recreation of image-staging and image-rootfs (nothing outside that
subtree is touched up to the copy stage, so the previously built project
binary survives into the copy stage), and the project-preparation stage
is never invoked.  (The claim as stated says every file outside
image-staging is left unchanged; with the keep flag unset the whole
scratch directory — the reuse directory itself — is removed at the end
of the run, see the counterexample, so the frame property holds up to
the copy stage, and for the whole run only when the keep flag is set.) -/
theorem C7_reuse_mode_frame (env : RunEnv) (config : CommonConfiguration)
    (backend : Backend) (paths : CommonPaths)
    (hreuse : config.ReuseTmpDir ≠ "")
    (hval : validateConfiguration env.isDir config backend.validateOk = none)
    (hsetup : setupPaths env config backend = ([], .ok paths))
    (hrm : env.removeAllOk paths.AciDir = true)
    (ha : env.mkdirOk paths.AciDir = true) (hrfs : env.mkdirOk paths.RootFS = true) :
    (∃ rest,
      (run env config backend).1 =
        (if config.KeepTmpDir then [BEffect.infoPreserving paths.TmpDir] else []) ++
          [.removeAll paths.AciDir, .mkdir paths.AciDir, .mkdir paths.RootFS] ++ rest ∧
      ∀ e ∈ rest, e = BEffect.copyAssets ∨ e = .prepareManifest ∨ e = .writeACI ∨
        e = .removeAll paths.TmpDir) ∧
    BEffect.prepareProject ∉ (run env config backend).1 := by
  have hsp := stagePrep_reuse env config backend paths hreuse hrm ha hrfs
  rcases hs2 : stageTail env with ⟨s2e, s2err⟩
  have hbody : (runBody env config backend paths).1 =
      [.removeAll paths.AciDir, .mkdir paths.AciDir, .mkdir paths.RootFS] ++ s2e := by
    unfold runBody
    rw [hsp, hs2]
  have hrun : run env config backend =
      ((if config.KeepTmpDir then [BEffect.infoPreserving paths.TmpDir] else []) ++
        (if config.KeepTmpDir then (runBody env config backend paths).1
          else (runBody env config backend paths).1 ++ [.removeAll paths.TmpDir]),
        (runBody env config backend paths).2) := by
    unfold run
    rw [hval, hsetup]
    simp
  have hs2e : ∀ e ∈ s2e, e = BEffect.copyAssets ∨ e = .prepareManifest ∨ e = .writeACI := by
    intro e hee
    exact stageTail_effects env e (by rw [hs2]; exact hee)
  constructor
  · by_cases hk : config.KeepTmpDir
    · refine ⟨s2e, ?_, ?_⟩
      · rw [hrun]
        simp only [hk, if_true, if_pos, hbody]
        simp [List.append_assoc]
      · intro e hee
        rcases hs2e e hee with h | h | h <;> tauto
    · refine ⟨s2e ++ [.removeAll paths.TmpDir], ?_, ?_⟩
      · rw [hrun]
        simp only [hk, if_neg, not_false_eq_true, if_false, hbody]
        simp [List.append_assoc]
      · intro e hee
        rcases List.mem_append.mp hee with h | h
        · rcases hs2e e h with h1 | h1 | h1 <;> tauto
        · rcases List.mem_singleton.mp h with h1
          tauto
  · rw [hrun]
    intro hmem
    rcases List.mem_append.mp hmem with h | h
    · by_cases hk : config.KeepTmpDir <;> simp [hk] at h
    · have hb : BEffect.prepareProject ∈ (runBody env config backend paths).1 := by
        by_cases hk : config.KeepTmpDir <;> simp only [hk, if_pos, if_true, if_neg,
          not_false_eq_true, if_false, Bool.false_eq_true] at h
        · exact h
        · rcases List.mem_append.mp h with h1 | h1
          · exact h1
          · simp at h1
      rw [hbody] at hb
      rcases List.mem_append.mp hb with h1 | h1
      · simp at h1
      · rcases hs2e _ h1 with h2 | h2 | h2 <;> simp at h2

/-- Witness for the amended C7: a successful reuse-mode run with the keep
flag set rebuilds only the image-staging subtree and never invokes
project preparation. -/
theorem C7_witness :
    (∃ rest,
      (run ⟨fun _ => true, .error (), fun _ => true, fun _ => true, true, true, true⟩
          ⟨[], "", [], true, "", "/reuse", "p"⟩ ⟨true, true, [], true⟩).1 =
        (if (true : Bool) then [BEffect.infoPreserving "/reuse"] else []) ++
          [.removeAll "/reuse/aci", .mkdir "/reuse/aci", .mkdir "/reuse/aci/rootfs"] ++
          rest ∧
      ∀ e ∈ rest, e = BEffect.copyAssets ∨ e = .prepareManifest ∨ e = .writeACI ∨
        e = .removeAll "/reuse") ∧
    BEffect.prepareProject ∉
      (run ⟨fun _ => true, .error (), fun _ => true, fun _ => true, true, true, true⟩
        ⟨[], "", [], true, "", "/reuse", "p"⟩ ⟨true, true, [], true⟩).1 :=
  C7_reuse_mode_frame
    ⟨fun _ => true, .error (), fun _ => true, fun _ => true, true, true, true⟩
    ⟨[], "", [], true, "", "/reuse", "p"⟩ ⟨true, true, [], true⟩
    ⟨"/reuse", "/reuse/aci", "/reuse/aci/rootfs"⟩
    (by decide) (by decide) rfl (by decide) (by decide) (by decide)

/-- Counterexample to C7 as stated: a successful reuse-mode run with the
keep flag unset ends by removing the whole scratch root `/reuse` (the
deferred cleanup), so the files outside the image-staging subtree — in
particular the previously built project binary — are *not* left
unchanged by the run. -/
theorem C7_counterexample :
    (run ⟨fun _ => true, .error (), fun _ => true, fun _ => true, true, true, true⟩
        ⟨[], "", [], false, "", "/reuse", "p"⟩ ⟨true, true, [], true⟩).2 = .ok () ∧
    (run ⟨fun _ => true, .error (), fun _ => true, fun _ => true, true, true, true⟩
        ⟨[], "", [], false, "", "/reuse", "p"⟩ ⟨true, true, [], true⟩).1.getLast? =
      some (.removeAll "/reuse") :=
  ⟨rfl, rfl⟩

/-! ### C10: dedup keys on the raw spec string -/

/-- Evaluation of `processAsset` on a well-formed spec resolving to a
regular-file local asset, not excluded, with no discovered
dependencies. -/
theorem processAsset_file_eval (fs : String → LstatRes) (disc : String → List String)
    (mkOk : String → Bool) (rootfs : String) (mapping : List (String × String))
    (excludes : List String) (asset x y : String) (perm : Nat)
    (hsplit : splitList asset = [x, y])
    (hA : isAbs (replacePlaceholders x mapping) = true)
    (hL : isAbs (replacePlaceholders y mapping) = true)
    (hfs : fs (replacePlaceholders y mapping) = .found (.file perm))
    (hmk : mkOk (goJoin2 rootfs (goDir (replacePlaceholders x mapping))) = true)
    (hdisc : disc (replacePlaceholders y mapping) = [])
    (hexcl : replacePlaceholders y mapping ∉ excludes) :
    processAsset fs disc mkOk rootfs mapping excludes asset =
      ⟨[.mkdirAll (goJoin2 rootfs (goDir (replacePlaceholders x mapping))),
        .copyFile (replacePlaceholders y mapping)
          (goJoin2 (goJoin2 rootfs (replacePlaceholders x mapping))
            (dropStr (replacePlaceholders y mapping)
              (replacePlaceholders y mapping).length)) perm],
       [], none⟩ := by
  unfold processAsset
  rw [hsplit]
  have hval : validateAsset fs (replacePlaceholders x mapping)
      (replacePlaceholders y mapping) = none := by
    unfold validateAsset
    simp [hA, hL, hfs]
  have hwalk : walkNode disc excludes (replacePlaceholders y mapping)
      (goJoin2 rootfs (replacePlaceholders x mapping))
      (replacePlaceholders y mapping) (.file perm) =
      ⟨[.copyFile (replacePlaceholders y mapping)
          (goJoin2 (goJoin2 rootfs (replacePlaceholders x mapping))
            (dropStr (replacePlaceholders y mapping)
              (replacePlaceholders y mapping).length)) perm],
        disc (replacePlaceholders y mapping), none⟩ := by
    unfold walkNode
    rw [if_neg hexcl]
  simp [hval, hwalk, hfs, hmk, hdisc]

/-- C10: the resolver's duplicate suppression keys on the raw,
pre-substitution spec string.  For two distinct raw specs that
substitute to the same resolved (image path, local path) pair, both are
handed to `processAsset` (handled list `[s₁, s₂]`) and the copy
operations are performed twice; by contrast, a spec string identical to
one already processed is skipped without any effect (handled list
`[s₁]`, single set of operations). -/
theorem C10_dedup_raw_spec (fs : String → LstatRes) (disc : String → List String)
    (mkOk : String → Bool) (rootfs : String) (m : List (String × String))
    (s₁ s₂ x₁ y₁ x₂ y₂ : String) (perm : Nat)
    (hne : s₂ ≠ s₁)
    (hsp1 : splitList s₁ = [x₁, y₁]) (hsp2 : splitList s₂ = [x₂, y₂])
    (hxx : replacePlaceholders x₂ m = replacePlaceholders x₁ m)
    (hyy : replacePlaceholders y₂ m = replacePlaceholders y₁ m)
    (hA : isAbs (replacePlaceholders x₁ m) = true)
    (hL : isAbs (replacePlaceholders y₁ m) = true)
    (hfs : fs (replacePlaceholders y₁ m) = .found (.file perm))
    (hmk : mkOk (goJoin2 rootfs (goDir (replacePlaceholders x₁ m))) = true)
    (hdisc : disc (replacePlaceholders y₁ m) = []) :
    PrepareAssets fs disc mkOk 3 [s₁, s₂] rootfs m [] =
      some (⟨[s₂, s₁], [s₁, s₂],
        [.mkdirAll (goJoin2 rootfs (goDir (replacePlaceholders x₁ m))),
         .copyFile (replacePlaceholders y₁ m)
           (goJoin2 (goJoin2 rootfs (replacePlaceholders x₁ m))
             (dropStr (replacePlaceholders y₁ m) (replacePlaceholders y₁ m).length)) perm,
         .mkdirAll (goJoin2 rootfs (goDir (replacePlaceholders x₁ m))),
         .copyFile (replacePlaceholders y₁ m)
           (goJoin2 (goJoin2 rootfs (replacePlaceholders x₁ m))
             (dropStr (replacePlaceholders y₁ m) (replacePlaceholders y₁ m).length)) perm],
        ⟩, none) ∧
    PrepareAssets fs disc mkOk 3 [s₁, s₁] rootfs m [] =
      some (⟨[s₁], [s₁],
        [.mkdirAll (goJoin2 rootfs (goDir (replacePlaceholders x₁ m))),
         .copyFile (replacePlaceholders y₁ m)
           (goJoin2 (goJoin2 rootfs (replacePlaceholders x₁ m))
             (dropStr (replacePlaceholders y₁ m) (replacePlaceholders y₁ m).length)) perm],
        ⟩, none) := by
  have hexcl1 : replacePlaceholders y₁ m ∉ ([] : List String) := by simp
  have hP1 := processAsset_file_eval fs disc mkOk rootfs m [] s₁ x₁ y₁ perm hsp1 hA hL hfs
    hmk hdisc hexcl1
  have hP2 : processAsset fs disc mkOk rootfs m [] s₂ =
      ⟨[.mkdirAll (goJoin2 rootfs (goDir (replacePlaceholders x₁ m))),
        .copyFile (replacePlaceholders y₁ m)
          (goJoin2 (goJoin2 rootfs (replacePlaceholders x₁ m))
            (dropStr (replacePlaceholders y₁ m) (replacePlaceholders y₁ m).length)) perm],
       [], none⟩ := by
    have h := processAsset_file_eval fs disc mkOk rootfs m [] s₂ x₂ y₂ perm hsp2
      (by rw [hxx]; exact hA) (by rw [hyy]; exact hL) (by rw [hyy]; exact hfs)
      (by rw [hxx]; exact hmk) (by rw [hyy]; exact hdisc) (by simp)
    rw [hxx, hyy] at h
    exact h
  have hpe : processExcludes [] m = [] := rfl
  constructor
  · unfold PrepareAssets
    rw [hpe]
    simp [prepLoop, prepRound, hP1, hP2, hne]
  · unfold PrepareAssets
    rw [hpe]
    simp [prepLoop, prepRound, hP1]

/-- Witness for C10: `"/a:<P>"` and `"/a:/x"` differ as raw strings but
substitute (under `<P> ↦ /x`) to the same resolved pair, so the file is
copied twice; the duplicate list `["/a:<P>", "/a:<P>"]` is processed
once. -/
theorem C10_witness :
    PrepareAssets
        (fun q => if q = "/x" then .found (.file 420) else .missing)
        (fun _ => []) (fun _ => true) 3 ["/a:<P>", "/a:/x"] "/r" [("<P>", "/x")] [] =
      some (⟨["/a:/x", "/a:<P>"], ["/a:<P>", "/a:/x"],
        [.mkdirAll "/r", .copyFile "/x" "/r/a" 420,
         .mkdirAll "/r", .copyFile "/x" "/r/a" 420]⟩, none) ∧
    PrepareAssets
        (fun q => if q = "/x" then .found (.file 420) else .missing)
        (fun _ => []) (fun _ => true) 3 ["/a:<P>", "/a:<P>"] "/r" [("<P>", "/x")] [] =
      some (⟨["/a:<P>"], ["/a:<P>"],
        [.mkdirAll "/r", .copyFile "/x" "/r/a" 420]⟩, none) := by
  have h := C10_dedup_raw_spec
    (fun q => if q = "/x" then .found (.file 420) else .missing)
    (fun _ => []) (fun _ => true) "/r" [("<P>", "/x")]
    "/a:<P>" "/a:/x" "/a" "<P>" "/a" "/x" 420
    (by decide) (by decide) (by decide) (by decide) (by decide) (by decide) (by decide)
    (by decide) (by decide) (by decide)
  exact ⟨h.1, h.2⟩

/-! ### C1: termination of the fixpoint worklist loop -/

theorem prepRound_cons_mem (procOne : String → ProcRes) (st : PrepState)
    (a : String) (rest : List String) (h : a ∈ st.processed) :
    prepRound procOne st (a :: rest) = prepRound procOne st rest := by
  conv_lhs => unfold prepRound
  rw [if_pos h]

theorem prepRound_cons_err (procOne : String → ProcRes) (st : PrepState)
    (a : String) (rest : List String) (e : ProcErr) (h : a ∉ st.processed)
    (herr : (procOne a).err = some e) :
    prepRound procOne st (a :: rest) =
      ⟨⟨a :: st.processed, st.handled ++ [a], st.ops ++ (procOne a).ops⟩, [], some e⟩ := by
  conv_lhs => unfold prepRound
  rw [if_neg h]
  simp only [herr]

theorem prepRound_cons_ok (procOne : String → ProcRes) (st : PrepState)
    (a : String) (rest : List String) (h : a ∉ st.processed)
    (herr : (procOne a).err = none) :
    prepRound procOne st (a :: rest) =
      ⟨(prepRound procOne
          ⟨a :: st.processed, st.handled ++ [a], st.ops ++ (procOne a).ops⟩ rest).st,
        (procOne a).extra ++
          (prepRound procOne
            ⟨a :: st.processed, st.handled ++ [a], st.ops ++ (procOne a).ops⟩ rest).next,
        (prepRound procOne
          ⟨a :: st.processed, st.handled ++ [a], st.ops ++ (procOne a).ops⟩ rest).err⟩ := by
  conv_lhs => unfold prepRound
  rw [if_neg h]
  simp only [herr]

/-- Invariants of one pass of the worklist loop: the processed set stays
duplicate-free and inside the universe `U`, the next worklist stays
inside `U`, `handled` stays the reverse of `processed`, the processed
set only grows, and a pass that adds nothing to the processed set is a
no-op with an empty next worklist. -/
theorem prepRound_props (procOne : String → ProcRes) (U : List String)
    (hext : ∀ a, (procOne a).extra ⊆ U) :
    ∀ (assets : List String) (st : PrepState),
      st.processed.Nodup → st.processed ⊆ U → assets ⊆ U →
      st.handled.reverse = st.processed →
      ((prepRound procOne st assets).st.processed.Nodup ∧
        (prepRound procOne st assets).st.processed ⊆ U ∧
        (prepRound procOne st assets).next ⊆ U ∧
        (prepRound procOne st assets).st.handled.reverse =
          (prepRound procOne st assets).st.processed ∧
        st.processed.length ≤ (prepRound procOne st assets).st.processed.length ∧
        ((prepRound procOne st assets).st.processed.length = st.processed.length →
          prepRound procOne st assets = ⟨st, [], none⟩)) := by
  intro assets
  induction assets with
  | nil =>
    intro st h1 h2 h3 h4
    exact ⟨h1, h2, by simp [prepRound], h4, le_rfl, fun _ => rfl⟩
  | cons a rest ih =>
    intro st h1 h2 h3 h4
    have haU : a ∈ U := h3 (by simp)
    have hrestU : rest ⊆ U := fun x hx => h3 (by simp [hx])
    by_cases hmem : a ∈ st.processed
    · rw [prepRound_cons_mem procOne st a rest hmem]
      exact ih st h1 h2 hrestU h4
    · have h1' : (a :: st.processed).Nodup := List.nodup_cons.mpr ⟨hmem, h1⟩
      have h2' : (a :: st.processed) ⊆ U := by
        intro x hx
        rcases List.mem_cons.mp hx with h | h
        · subst h; exact haU
        · exact h2 h
      have h4' : (st.handled ++ [a]).reverse = a :: st.processed := by
        simp [h4]
      cases herr : (procOne a).err with
      | some e =>
        rw [prepRound_cons_err procOne st a rest e hmem herr]
        refine ⟨h1', h2', by simp, h4', by simp, ?_⟩
        intro hlen
        simp at hlen
      | none =>
        rw [prepRound_cons_ok procOne st a rest hmem herr]
        obtain ⟨g1, g2, g3, g4, g5, g6⟩ :=
          ih ⟨a :: st.processed, st.handled ++ [a], st.ops ++ (procOne a).ops⟩
            h1' h2' hrestU h4'
        refine ⟨g1, g2, ?_, g4, ?_, ?_⟩
        · intro x hx
          rcases List.mem_append.mp hx with h | h
          · exact hext a h
          · exact g3 h
        · have hstep : st.processed.length ≤ (a :: st.processed).length := by simp
          exact le_trans hstep g5
        · intro hlen
          exfalso
          have hd : ((⟨a :: st.processed, st.handled ++ [a],
              st.ops ++ (procOne a).ops⟩ : PrepState)).processed.length =
              st.processed.length + 1 := rfl
          have hlen2 : (prepRound procOne ⟨a :: st.processed, st.handled ++ [a],
              st.ops ++ (procOne a).ops⟩ rest).st.processed.length =
              st.processed.length := hlen
          omega

theorem prepLoop_succ_empty (procOne : String → ProcRes) (f : Nat) (st : PrepState)
    (assets : List String) (hemp : assets.isEmpty = true) :
    prepLoop procOne (f + 1) st assets = some (st, none) := by
  conv_lhs => unfold prepLoop
  rw [if_pos hemp]

theorem prepLoop_succ_err (procOne : String → ProcRes) (f : Nat) (st : PrepState)
    (assets : List String) (e : ProcErr) (hemp : ¬ assets.isEmpty = true)
    (herr : (prepRound procOne st assets).err = some e) :
    prepLoop procOne (f + 1) st assets = some ((prepRound procOne st assets).st, some e) := by
  conv_lhs => unfold prepLoop
  rw [if_neg hemp]
  simp only [herr]

theorem prepLoop_succ_ok (procOne : String → ProcRes) (f : Nat) (st : PrepState)
    (assets : List String) (hemp : ¬ assets.isEmpty = true)
    (herr : (prepRound procOne st assets).err = none) :
    prepLoop procOne (f + 1) st assets =
      prepLoop procOne f (prepRound procOne st assets).st
        (prepRound procOne st assets).next := by
  conv_lhs => unfold prepLoop
  rw [if_neg hemp]
  simp only [herr]

/-- Fuel `|U| + 2` suffices for the worklist loop whenever the initial
assets and every discovered spec lie in the universe `U`: each non-final
pass strictly grows the duplicate-free processed subset of `U`, or
empties the worklist. -/
theorem prepLoop_terminates_aux (procOne : String → ProcRes) (U : List String)
    (hext : ∀ a, (procOne a).extra ⊆ U) :
    ∀ (fuel : Nat) (st : PrepState) (assets : List String),
      st.processed.Nodup → st.processed ⊆ U → assets ⊆ U →
      st.handled.reverse = st.processed →
      U.length + 2 ≤ fuel + st.processed.length →
      ∃ out, prepLoop procOne fuel st assets = some out ∧ out.1.handled.Nodup := by
  intro fuel
  induction fuel with
  | zero =>
    intro st assets h1 h2 h3 h4 h5
    exfalso
    have hle : st.processed.length ≤ U.length := (List.subperm_of_subset h1 h2).length_le
    omega
  | succ f ih =>
    intro st assets h1 h2 h3 h4 h5
    have hnd : st.handled.Nodup := by
      have := h4 ▸ h1
      exact List.nodup_reverse.mp this
    by_cases hemp : assets.isEmpty = true
    · exact ⟨(st, none), prepLoop_succ_empty procOne f st assets hemp, hnd⟩
    · obtain ⟨g1, g2, g3, g4, g5, g6⟩ := prepRound_props procOne U hext assets st h1 h2 h3 h4
      have grnd : (prepRound procOne st assets).st.handled.Nodup :=
        List.nodup_reverse.mp (g4 ▸ g1)
      cases herr : (prepRound procOne st assets).err with
      | some e =>
        exact ⟨((prepRound procOne st assets).st, some e),
          prepLoop_succ_err procOne f st assets e hemp herr, grnd⟩
      | none =>
        by_cases hgrow : (prepRound procOne st assets).st.processed.length =
            st.processed.length
        · have hnoop := g6 hgrow
          have hle : st.processed.length ≤ U.length :=
            (List.subperm_of_subset h1 h2).length_le
          obtain ⟨f', rfl⟩ : ∃ f', f = f' + 1 := ⟨f - 1, by omega⟩
          rw [prepLoop_succ_ok procOne (f' + 1) st assets hemp herr, hnoop]
          exact ⟨(st, none), prepLoop_succ_empty procOne f' st [] rfl, hnd⟩
        · have hlt : st.processed.length < (prepRound procOne st assets).st.processed.length :=
            lt_of_le_of_ne g5 (fun hh => hgrow hh.symm)
          obtain ⟨out, hout, hnd2⟩ :=
            ih (prepRound procOne st assets).st (prepRound procOne st assets).next
              g1 g2 g3 g4 (by omega)
          rw [prepLoop_succ_ok procOne f st assets hemp herr]
          exact ⟨out, hout, hnd2⟩

/-- C1: the fixpoint worklist loop of `PrepareAssets` terminates for
every finite input list and every dependency-discovery behaviour whose
outputs range over a finite universe `U` of spec strings (cyclic
rediscovery of already-seen specs included): fuel `|U| + 2` already makes
the loop return, and the list of specs handed to `processOne` is
duplicate-free — each spec string is processed at most once, because the
`ProcessedSet` is checked before processing and extended when a spec is
processed. -/
theorem C1_prepare_assets_terminates (procOne : String → ProcRes) (U assets : List String)
    (hext : ∀ a, (procOne a).extra ⊆ U) (hin : assets ⊆ U) :
    ∃ out, prepLoop procOne (U.length + 2) ⟨[], [], []⟩ assets = some out ∧
      out.1.handled.Nodup :=
  prepLoop_terminates_aux procOne U hext (U.length + 2) ⟨[], [], []⟩ assets
    (by simp) (by simp) hin rfl (by simp)

/-- Witness for C1 with a cyclic discovery (`x` discovers `y`, `y`
rediscovers `x`). -/
theorem C1_witness :
    ∃ out, prepLoop (fun a => ⟨[], if a = "x" then ["y"] else ["x"], none⟩)
        ((["x", "y"] : List String).length + 2) ⟨[], [], []⟩ ["x"] = some out ∧
      out.1.handled.Nodup :=
  C1_prepare_assets_terminates (fun a => ⟨[], if a = "x" then ["y"] else ["x"], none⟩)
    ["x", "y"] ["x"]
    (fun a => by
      by_cases h : a = "x" <;>
        simp only [h, if_pos, if_neg, not_false_eq_true, ite_true, ite_false] <;>
        intro b hb <;> simp at hb <;> simp [hb])
    (by intro b hb; simp at hb; simp [hb])

/-! ### C3: the exclude set prunes exactly the excluded node (file) or
subtree (directory) -/

/-- Mutual induction principle for `FsTree` and `FsForest`. -/
theorem fsTree_mutual_ind (motive1 : FsTree → Prop) (motive2 : FsForest → Prop)
    (hfile : ∀ p, motive1 (.file p))
    (hdir : ∀ p f, motive2 f → motive1 (.dir p f))
    (hsym : ∀ s, motive1 (.symlink s))
    (hother : motive1 .other)
    (hnil : motive2 .nil)
    (hcons : ∀ n t f, motive1 t → motive2 f → motive2 (.cons n t f)) :
    (∀ t, motive1 t) ∧ (∀ f, motive2 f) :=
  ⟨fun t => FsTree.rec hfile hdir hsym hother hnil hcons t,
   fun f => FsForest.rec hfile hdir hsym hother hnil hcons f⟩

theorem walkNode_excluded (disc : String → List String) (excl : List String)
    (src dest path : String) (t : FsTree) (h : path ∈ excl) :
    walkNode disc excl src dest path t = ⟨[], [], none⟩ := by
  conv_lhs => unfold walkNode
  rw [if_pos h]

theorem walkNode_dir (disc : String → List String) (excl : List String)
    (src dest path : String) (perm : Nat) (entries : FsForest) (h : path ∉ excl) :
    walkNode disc excl src dest path (.dir perm entries) =
      ⟨.mkdir path (goJoin2 dest (dropStr path src.length)) perm ::
          (walkEntries disc excl src dest path entries).ops,
        (walkEntries disc excl src dest path entries).found,
        (walkEntries disc excl src dest path entries).err⟩ := by
  conv_lhs => unfold walkNode
  rw [if_neg h]

theorem walkNode_file (disc : String → List String) (excl : List String)
    (src dest path : String) (perm : Nat) (h : path ∉ excl) :
    walkNode disc excl src dest path (.file perm) =
      ⟨[.copyFile path (goJoin2 dest (dropStr path src.length)) perm],
        disc path, none⟩ := by
  conv_lhs => unfold walkNode
  rw [if_neg h]

theorem walkNode_symlink (disc : String → List String) (excl : List String)
    (src dest path : String) (tgt : String) (h : path ∉ excl) :
    walkNode disc excl src dest path (.symlink tgt) =
      ⟨[.mklink path (goJoin2 dest (dropStr path src.length)) tgt], [], none⟩ := by
  conv_lhs => unfold walkNode
  rw [if_neg h]

theorem walkEntries_nil (disc : String → List String) (excl : List String)
    (src dest path : String) :
    walkEntries disc excl src dest path .nil = ⟨[], [], none⟩ := rfl

theorem walkEntries_cons_ok (disc : String → List String) (excl : List String)
    (src dest path n : String) (child : FsTree) (rest : FsForest)
    (h : (walkNode disc excl src dest (goJoin2 path n) child).err = none) :
    walkEntries disc excl src dest path (.cons n child rest) =
      ⟨(walkNode disc excl src dest (goJoin2 path n) child).ops ++
          (walkEntries disc excl src dest path rest).ops,
        (walkNode disc excl src dest (goJoin2 path n) child).found ++
          (walkEntries disc excl src dest path rest).found,
        (walkEntries disc excl src dest path rest).err⟩ := by
  conv_lhs => unfold walkEntries
  simp only [h]

theorem walkEntries_cons_err (disc : String → List String) (excl : List String)
    (src dest path n : String) (child : FsTree) (rest : FsForest) (e : WalkErr)
    (h : (walkNode disc excl src dest (goJoin2 path n) child).err = some e) :
    walkEntries disc excl src dest path (.cons n child rest) =
      ⟨(walkNode disc excl src dest (goJoin2 path n) child).ops,
        (walkNode disc excl src dest (goJoin2 path n) child).found, some e⟩ := by
  conv_lhs => unfold walkEntries
  simp only [h]

theorem findNode_self (path : String) (t : FsTree) (e : String) (h : path = e) :
    findNode path t e = some t := by
  conv_lhs => unfold findNode
  rw [if_pos h]

theorem findNode_ne (path : String) (t : FsTree) (e : String) (h : ¬ path = e) :
    findNode path t e =
      (match t with
       | .dir _ entries => findForest path entries e
       | _ => none) := by
  conv_lhs => unfold findNode
  rw [if_neg h]

theorem findForest_cons (path n : String) (child : FsTree) (rest : FsForest) (e : String) :
    findForest path (.cons n child rest) e =
      (match findNode (goJoin2 path n) child e with
       | some u => some u
       | none => findForest path rest e) := rfl

theorem nodePaths_dir (path : String) (perm : Nat) (entries : FsForest) :
    nodePaths path (.dir perm entries) = path :: forestPaths path entries := rfl

theorem forestPaths_cons (path n : String) (child : FsTree) (rest : FsForest) :
    forestPaths path (.cons n child rest) =
      nodePaths (goJoin2 path n) child ++ forestPaths path rest := rfl

/-- Every node's walk-path list contains the node's own path. -/
theorem self_mem_nodePaths (path : String) (t : FsTree) : path ∈ nodePaths path t := by
  cases t <;> simp [nodePaths]

/-- On a tree with no unsupported node, the copying walk never fails,
whatever the exclude set. -/
theorem walk_err_none :
    (∀ t : FsTree, supportedTree t = true →
      ∀ (disc : String → List String) (excl : List String) (src dest path : String),
        (walkNode disc excl src dest path t).err = none) ∧
    (∀ f : FsForest, supportedForest f = true →
      ∀ (disc : String → List String) (excl : List String) (src dest path : String),
        (walkEntries disc excl src dest path f).err = none) := by
  refine fsTree_mutual_ind _ _ ?_ ?_ ?_ ?_ ?_ ?_
  · intro p _ disc excl src dest path
    by_cases h : path ∈ excl
    · rw [walkNode_excluded disc excl src dest path _ h]
    · rw [walkNode_file disc excl src dest path p h]
  · intro p f ih hs disc excl src dest path
    have hsf : supportedForest f = true := by
      simpa [supportedTree] using hs
    by_cases h : path ∈ excl
    · rw [walkNode_excluded disc excl src dest path _ h]
    · rw [walkNode_dir disc excl src dest path p f h]
      exact ih hsf disc excl src dest path
  · intro s _ disc excl src dest path
    by_cases h : path ∈ excl
    · rw [walkNode_excluded disc excl src dest path _ h]
    · rw [walkNode_symlink disc excl src dest path s h]
  · intro hs
    simp [supportedTree] at hs
  · intro _ disc excl src dest path
    rw [walkEntries_nil]
  · intro n t f ih1 ih2 hs disc excl src dest path
    have hst : supportedTree t = true ∧ supportedForest f = true := by
      simpa [supportedForest] using hs
    rw [walkEntries_cons_ok disc excl src dest path n t f
      (ih1 hst.1 disc excl src dest (goJoin2 path n))]
    exact ih2 hst.2 disc excl src dest path

/-- Every operation of an unexcluded walk was performed for a node of the
tree: its source is one of the walk paths. -/
theorem walk_src_mem :
    (∀ t : FsTree, ∀ (disc : String → List String) (src dest path : String)
      (op : FsOp), op ∈ (walkNode disc [] src dest path t).ops →
        ∃ q ∈ nodePaths path t, op.srcOf = some q) ∧
    (∀ f : FsForest, ∀ (disc : String → List String) (src dest path : String)
      (op : FsOp), op ∈ (walkEntries disc [] src dest path f).ops →
        ∃ q ∈ forestPaths path f, op.srcOf = some q) := by
  refine fsTree_mutual_ind _ _ ?_ ?_ ?_ ?_ ?_ ?_
  · intro p disc src dest path op hop
    rw [walkNode_file disc [] src dest path p (by simp)] at hop
    rcases List.mem_singleton.mp hop with rfl
    exact ⟨path, self_mem_nodePaths path _, rfl⟩
  · intro p f ih disc src dest path op hop
    rw [walkNode_dir disc [] src dest path p f (by simp)] at hop
    rcases List.mem_cons.mp hop with h | h
    · subst h
      exact ⟨path, self_mem_nodePaths path _, rfl⟩
    · obtain ⟨q, hq, hsrc⟩ := ih disc src dest path op h
      exact ⟨q, by simp [nodePaths_dir, hq], hsrc⟩
  · intro s disc src dest path op hop
    rw [walkNode_symlink disc [] src dest path s (by simp)] at hop
    rcases List.mem_singleton.mp hop with rfl
    exact ⟨path, self_mem_nodePaths path _, rfl⟩
  · intro disc src dest path op hop
    have h1 : (walkNode disc [] src dest path .other) = ⟨[], [], some (.unsupportedNode path)⟩ := by
      conv_lhs => unfold walkNode
      rw [if_neg (by simp)]
    rw [h1] at hop
    simp at hop
  · intro disc src dest path op hop
    rw [walkEntries_nil] at hop
    simp at hop
  · intro n t f ih1 ih2 disc src dest path op hop
    rcases herr : (walkNode disc [] src dest (goJoin2 path n) t).err with _ | e
    · rw [walkEntries_cons_ok disc [] src dest path n t f herr] at hop
      rcases List.mem_append.mp hop with h | h
      · obtain ⟨q, hq, hsrc⟩ := ih1 disc src dest (goJoin2 path n) op h
        exact ⟨q, by simp [forestPaths_cons, hq], hsrc⟩
      · obtain ⟨q, hq, hsrc⟩ := ih2 disc src dest path op h
        exact ⟨q, by simp [forestPaths_cons, hq], hsrc⟩
    · rw [walkEntries_cons_err disc [] src dest path n t f e herr] at hop
      obtain ⟨q, hq, hsrc⟩ := ih1 disc src dest (goJoin2 path n) op hop
      exact ⟨q, by simp [forestPaths_cons, hq], hsrc⟩

/-- A found node's path is among the walk paths, and conversely a `none`
result means the path is absent. -/
theorem find_mem :
    (∀ t : FsTree, ∀ path e : String, ∀ u : FsTree,
      findNode path t e = some u → e ∈ nodePaths path t) ∧
    (∀ f : FsForest, ∀ path e : String, ∀ u : FsTree,
      findForest path f e = some u → e ∈ forestPaths path f) := by
  refine fsTree_mutual_ind _ _ ?_ ?_ ?_ ?_ ?_ ?_
  · intro p path e u hf
    by_cases h : path = e
    · subst h; exact self_mem_nodePaths path _
    · rw [findNode_ne path _ e h] at hf
      simp at hf
  · intro p f ih path e u hf
    by_cases h : path = e
    · subst h; exact self_mem_nodePaths path _
    · rw [findNode_ne path _ e h] at hf
      simp only at hf
      have := ih path e u hf
      simp [nodePaths_dir, this]
  · intro s path e u hf
    by_cases h : path = e
    · subst h; exact self_mem_nodePaths path _
    · rw [findNode_ne path _ e h] at hf
      simp at hf
  · intro path e u hf
    by_cases h : path = e
    · subst h; exact self_mem_nodePaths path _
    · rw [findNode_ne path _ e h] at hf
      simp at hf
  · intro path e u hf
    simp [findForest] at hf
  · intro n t f ih1 ih2 path e u hf
    rw [findForest_cons] at hf
    rcases hc : findNode (goJoin2 path n) t e with _ | v
    · rw [hc] at hf
      simp only at hf
      have := ih2 path e u hf
      simp [forestPaths_cons, this]
    · rw [hc] at hf
      have := ih1 (goJoin2 path n) e v hc
      simp [forestPaths_cons, this]

/-- An absent path is never found. -/
theorem find_none :
    (∀ t : FsTree, ∀ path e : String, e ∈ nodePaths path t →
      ∃ u, findNode path t e = some u) ∧
    (∀ f : FsForest, ∀ path e : String, e ∈ forestPaths path f →
      ∃ u, findForest path f e = some u) := by
  refine fsTree_mutual_ind _ _ ?_ ?_ ?_ ?_ ?_ ?_
  · intro p path e hmem
    simp only [nodePaths, List.mem_singleton] at hmem
    exact ⟨.file p, findNode_self path _ e hmem.symm⟩
  · intro p f ih path e hmem
    by_cases h : path = e
    · exact ⟨.dir p f, findNode_self path _ e h⟩
    · rw [nodePaths_dir] at hmem
      rcases List.mem_cons.mp hmem with h1 | h1
      · exact absurd h1.symm h
      · obtain ⟨u, hu⟩ := ih path e h1
        refine ⟨u, ?_⟩
        rw [findNode_ne path _ e h]
        exact hu
  · intro s path e hmem
    simp only [nodePaths, List.mem_singleton] at hmem
    exact ⟨.symlink s, findNode_self path _ e hmem.symm⟩
  · intro path e hmem
    simp only [nodePaths, List.mem_singleton] at hmem
    exact ⟨.other, findNode_self path _ e hmem.symm⟩
  · intro path e hmem
    simp [forestPaths] at hmem
  · intro n t f ih1 ih2 path e hmem
    rw [forestPaths_cons] at hmem
    rcases List.mem_append.mp hmem with h1 | h1
    · obtain ⟨u, hu⟩ := ih1 (goJoin2 path n) e h1
      refine ⟨u, ?_⟩
      rw [findForest_cons, hu]
    · rcases hc : findNode (goJoin2 path n) t e with _ | v
      · obtain ⟨u, hu⟩ := ih2 path e h1
        refine ⟨u, ?_⟩
        rw [findForest_cons, hc]
        exact hu
      · exact ⟨v, by rw [findForest_cons, hc]⟩

/-- The walk paths of a found subtree are walk paths of the whole tree. -/
theorem find_sub :
    (∀ t : FsTree, ∀ path e : String, ∀ u : FsTree,
      findNode path t e = some u → nodePaths e u ⊆ nodePaths path t) ∧
    (∀ f : FsForest, ∀ path e : String, ∀ u : FsTree,
      findForest path f e = some u → nodePaths e u ⊆ forestPaths path f) := by
  refine fsTree_mutual_ind _ _ ?_ ?_ ?_ ?_ ?_ ?_
  · intro p path e u hf
    by_cases h : path = e
    · rw [findNode_self path _ e h] at hf
      injection hf with hf
      subst hf; subst h
      exact fun q hq => hq
    · rw [findNode_ne path _ e h] at hf
      simp at hf
  · intro p f ih path e u hf
    by_cases h : path = e
    · rw [findNode_self path _ e h] at hf
      injection hf with hf
      subst hf; subst h
      exact fun q hq => hq
    · rw [findNode_ne path _ e h] at hf
      simp only at hf
      have hsub := ih path e u hf
      intro q hq
      rw [nodePaths_dir]
      exact List.mem_cons.mpr (Or.inr (hsub hq))
  · intro s path e u hf
    by_cases h : path = e
    · rw [findNode_self path _ e h] at hf
      injection hf with hf
      subst hf; subst h
      exact fun q hq => hq
    · rw [findNode_ne path _ e h] at hf
      simp at hf
  · intro path e u hf
    by_cases h : path = e
    · rw [findNode_self path _ e h] at hf
      injection hf with hf
      subst hf; subst h
      exact fun q hq => hq
    · rw [findNode_ne path _ e h] at hf
      simp at hf
  · intro path e u hf
    simp [findForest] at hf
  · intro n t f ih1 ih2 path e u hf
    rw [findForest_cons] at hf
    rcases hc : findNode (goJoin2 path n) t e with _ | v
    · rw [hc] at hf
      simp only at hf
      have hsub := ih2 path e u hf
      intro q hq
      rw [forestPaths_cons]
      exact List.mem_append.mpr (Or.inr (hsub hq))
    · rw [hc] at hf
      have hv : v = u := by injection hf
      rw [hv] at hc
      have hsub := ih1 (goJoin2 path n) e u hc
      intro q hq
      rw [forestPaths_cons]
      exact List.mem_append.mpr (Or.inl (hsub hq))

/-- Excluding a path that does not occur among the walk paths does not
change the walk at all. -/
theorem walk_not_mem_eq :
    (∀ t : FsTree, ∀ (disc : String → List String) (src dest path e : String),
      e ∉ nodePaths path t →
        walkNode disc [e] src dest path t = walkNode disc [] src dest path t) ∧
    (∀ f : FsForest, ∀ (disc : String → List String) (src dest path e : String),
      e ∉ forestPaths path f →
        walkEntries disc [e] src dest path f = walkEntries disc [] src dest path f) := by
  refine fsTree_mutual_ind _ _ ?_ ?_ ?_ ?_ ?_ ?_
  · intro p disc src dest path e hmem
    have hne : path ∉ [e] := by
      simp only [List.mem_singleton]
      intro h
      exact hmem (h ▸ self_mem_nodePaths path _)
    rw [walkNode_file disc [e] src dest path p hne, walkNode_file disc [] src dest path p (by simp)]
  · intro p f ih disc src dest path e hmem
    have hne : path ∉ [e] := by
      simp only [List.mem_singleton]
      intro h
      exact hmem (h ▸ self_mem_nodePaths path _)
    have hmem2 : e ∉ forestPaths path f := by
      intro h
      exact hmem (by simp [nodePaths_dir, h])
    rw [walkNode_dir disc [e] src dest path p f hne, walkNode_dir disc [] src dest path p f (by simp),
      ih disc src dest path e hmem2]
  · intro s disc src dest path e hmem
    have hne : path ∉ [e] := by
      simp only [List.mem_singleton]
      intro h
      exact hmem (h ▸ self_mem_nodePaths path _)
    rw [walkNode_symlink disc [e] src dest path s hne,
      walkNode_symlink disc [] src dest path s (by simp)]
  · intro disc src dest path e hmem
    have hne : path ∉ [e] := by
      simp only [List.mem_singleton]
      intro h
      exact hmem (h ▸ self_mem_nodePaths path _)
    have h1 : walkNode disc [e] src dest path .other = ⟨[], [], some (.unsupportedNode path)⟩ := by
      conv_lhs => unfold walkNode
      rw [if_neg hne]
    have h2 : walkNode disc [] src dest path .other = ⟨[], [], some (.unsupportedNode path)⟩ := by
      conv_lhs => unfold walkNode
      rw [if_neg (by simp)]
    rw [h1, h2]
  · intro disc src dest path e _
    rw [walkEntries_nil, walkEntries_nil]
  · intro n t f ih1 ih2 disc src dest path e hmem
    have hm1 : e ∉ nodePaths (goJoin2 path n) t := by
      intro h
      exact hmem (by simp [forestPaths_cons, h])
    have hm2 : e ∉ forestPaths path f := by
      intro h
      exact hmem (by simp [forestPaths_cons, h])
    have heq1 := ih1 disc src dest (goJoin2 path n) e hm1
    have heq2 := ih2 disc src dest path e hm2
    conv_lhs => unfold walkEntries
    conv_rhs => unfold walkEntries
    rw [heq1, heq2]

/-- The pruning lemma: on a tree with duplicate-free walk paths and no
unsupported nodes, the operations of the walk with exactly the path `e`
excluded are the unexcluded walk's operations minus those performed for
the nodes of the subtree found at `e`. -/
theorem walk_exclude_filter :
    (∀ t : FsTree, ∀ (disc : String → List String) (src dest path e : String) (u : FsTree),
      (nodePaths path t).Nodup → supportedTree t = true → findNode path t e = some u →
        (walkNode disc [e] src dest path t).ops =
          (walkNode disc [] src dest path t).ops.filter
            (fun op => decide (op.srcOf ∉ (nodePaths e u).map some))) ∧
    (∀ f : FsForest, ∀ (disc : String → List String) (src dest path e : String) (u : FsTree),
      (forestPaths path f).Nodup → supportedForest f = true →
      findForest path f e = some u →
        (walkEntries disc [e] src dest path f).ops =
          (walkEntries disc [] src dest path f).ops.filter
            (fun op => decide (op.srcOf ∉ (nodePaths e u).map some))) := by
  refine fsTree_mutual_ind _ _ ?_ ?_ ?_ ?_ ?_ ?_
  · -- file
    intro p disc src dest path e u hnd hs hf
    by_cases h : path = e
    · subst h
      rw [findNode_self path _ path rfl] at hf
      have hu : FsTree.file p = u := by injection hf
      subst hu
      rw [walkNode_excluded disc [path] src dest path _ (by simp)]
      rw [walkNode_file disc [] src dest path p (by simp)]
      simp [FsOp.srcOf, nodePaths]
    · rw [findNode_ne path _ e h] at hf
      simp at hf
  · -- dir
    intro p f ih disc src dest path e u hnd hs hf
    have hsf : supportedForest f = true := by simpa [supportedTree] using hs
    by_cases h : path = e
    · subst h
      rw [findNode_self path _ path rfl] at hf
      have hu : FsTree.dir p f = u := by injection hf
      subst hu
      rw [walkNode_excluded disc [path] src dest path _ (by simp)]
      rw [walkNode_dir disc [] src dest path p f (by simp)]
      symm
      rw [List.filter_eq_nil_iff]
      intro op hop
      simp only [decide_eq_true_eq, Decidable.not_not]
      rcases List.mem_cons.mp hop with h1 | h1
      · subst h1
        exact List.mem_map.mpr ⟨path, self_mem_nodePaths path _, rfl⟩
      · obtain ⟨q, hq, hsrc⟩ := walk_src_mem.2 f disc src dest path op h1
        rw [hsrc]
        exact List.mem_map.mpr ⟨q, by simp [nodePaths_dir, hq], rfl⟩
    · rw [findNode_ne path _ e h] at hf
      simp only at hf
      have hpath : path ∉ forestPaths path f := by
        rw [nodePaths_dir] at hnd
        exact (List.nodup_cons.mp hnd).1
      have hndf : (forestPaths path f).Nodup := by
        rw [nodePaths_dir] at hnd
        exact (List.nodup_cons.mp hnd).2
      rw [walkNode_dir disc [e] src dest path p f (by simp only [List.mem_singleton]; exact h)]
      rw [walkNode_dir disc [] src dest path p f (by simp)]
      dsimp only
      have hmk : (decide (FsOp.srcOf
          (FsOp.mkdir path (goJoin2 dest (dropStr path src.length)) p) ∉
            (nodePaths e u).map some)) = true := by
        simp only [decide_eq_true_eq, FsOp.srcOf]
        intro hin
        rcases List.mem_map.mp hin with ⟨q, hq, hq2⟩
        have hq3 : q = path := by injection hq2
        exact hpath (find_sub.2 f path e u hf (hq3 ▸ hq))
      rw [List.filter_cons]
      rw [hmk]
      rw [if_pos rfl]
      congr 1
      exact ih disc src dest path e u hndf hsf hf
  · -- symlink
    intro s disc src dest path e u hnd hs hf
    by_cases h : path = e
    · subst h
      rw [findNode_self path _ path rfl] at hf
      have hu : FsTree.symlink s = u := by injection hf
      subst hu
      rw [walkNode_excluded disc [path] src dest path _ (by simp)]
      rw [walkNode_symlink disc [] src dest path s (by simp)]
      simp [FsOp.srcOf, nodePaths]
    · rw [findNode_ne path _ e h] at hf
      simp at hf
  · -- other
    intro disc src dest path e u hnd hs hf
    simp [supportedTree] at hs
  · -- nil
    intro disc src dest path e u hnd hs hf
    simp [findForest] at hf
  · -- cons
    intro n t f ih1 ih2 disc src dest path e u hnd hs hf
    have hst : supportedTree t = true ∧ supportedForest f = true := by
      simpa [supportedForest] using hs
    rw [forestPaths_cons] at hnd
    have hnd1 : (nodePaths (goJoin2 path n) t).Nodup := (List.nodup_append.mp hnd).1
    have hnd2 : (forestPaths path f).Nodup := (List.nodup_append.mp hnd).2.1
    have hdisj : ∀ a ∈ nodePaths (goJoin2 path n) t, a ∉ forestPaths path f :=
      (List.nodup_append.mp hnd).2.2
    have hce : (walkNode disc [e] src dest (goJoin2 path n) t).err = none :=
      walk_err_none.1 t hst.1 disc [e] src dest (goJoin2 path n)
    have hcf : (walkNode disc [] src dest (goJoin2 path n) t).err = none :=
      walk_err_none.1 t hst.1 disc [] src dest (goJoin2 path n)
    rw [walkEntries_cons_ok disc [e] src dest path n t f hce]
    rw [walkEntries_cons_ok disc [] src dest path n t f hcf]
    simp only [List.filter_append]
    rw [findForest_cons] at hf
    rcases hc : findNode (goJoin2 path n) t e with _ | v
    · -- e is not in the child: it is in the rest
      rw [hc] at hf
      simp only at hf
      have hech : e ∉ nodePaths (goJoin2 path n) t := by
        intro hmem
        obtain ⟨u', hu'⟩ := find_none.1 t (goJoin2 path n) e hmem
        rw [hu'] at hc
        exact Option.noConfusion hc
      have hsubrest : nodePaths e u ⊆ forestPaths path f := find_sub.2 f path e u hf
      congr 1
      · -- child walk unchanged and filter is the identity there
        rw [walk_not_mem_eq.1 t disc src dest (goJoin2 path n) e hech]
        symm
        rw [List.filter_eq_self]
        intro op hop
        simp only [decide_eq_true_eq]
        obtain ⟨q, hq, hsrc⟩ := walk_src_mem.1 t disc src dest (goJoin2 path n) op hop
        rw [hsrc]
        intro hin
        rcases List.mem_map.mp hin with ⟨q2, hq2, hq3⟩
        have hq4 : q2 = q := by injection hq3
        exact hdisj q hq (hsubrest (hq4 ▸ hq2))
      · exact ih2 disc src dest path e u hnd2 hst.2 hf
    · -- e is in the child
      rw [hc] at hf
      have hv : v = u := by injection hf
      rw [hv] at hc
      have hech : e ∈ nodePaths (goJoin2 path n) t := find_mem.1 t (goJoin2 path n) e u hc
      have hsubchild : nodePaths e u ⊆ nodePaths (goJoin2 path n) t :=
        find_sub.1 t (goJoin2 path n) e u hc
      have herest : e ∉ forestPaths path f := hdisj e hech
      congr 1
      · exact ih1 disc src dest (goJoin2 path n) e u hnd1 hst.1 hc
      · rw [walk_not_mem_eq.2 f disc src dest path e herest]
        symm
        rw [List.filter_eq_self]
        intro op hop
        simp only [decide_eq_true_eq]
        obtain ⟨q, hq, hsrc⟩ := walk_src_mem.2 f disc src dest path op hop
        rw [hsrc]
        intro hin
        rcases List.mem_map.mp hin with ⟨q2, hq2, hq3⟩
        have hq4 : q2 = q := by injection hq3
        exact hdisj q (hsubchild (hq4 ▸ hq2)) hq

/-- C3: during the copy walk with a node's local path in the
(placeholder-substituted) exclude set: if the node is a regular file,
exactly the operation for that file is omitted from the destination and
everything else — in particular all its siblings — is still copied; if
the node is a directory, exactly the operations for the directory and
every node beneath it are omitted and nothing outside that subtree is
affected.  Stated as: the excluded walk's operation trace equals the
unexcluded trace filtered by source path.  The hypotheses ask for
duplicate-free walk paths (distinct entry names) and a tree with only
supported node kinds. -/
theorem C3_exclude_prunes_exactly (disc : String → List String) (src dest e : String)
    (t u : FsTree)
    (hnd : (nodePaths src t).Nodup)
    (hsupp : supportedTree t = true)
    (hfind : findNode src t e = some u) :
    ((∃ perm, u = .file perm) →
      (walkNode disc [e] src dest src t).ops =
        (walkNode disc [] src dest src t).ops.filter
          (fun op => decide (¬ op.srcOf = some e))) ∧
    ((∃ perm entries, u = .dir perm entries) →
      (walkNode disc [e] src dest src t).ops =
        (walkNode disc [] src dest src t).ops.filter
          (fun op => decide (op.srcOf ∉ (nodePaths e u).map some))) := by
  have hmain := walk_exclude_filter.1 t disc src dest src e u hnd hsupp hfind
  constructor
  · rintro ⟨perm, hu⟩
    rw [hmain]
    apply List.filter_congr
    intro op hop
    subst hu
    simp [nodePaths]
  · intro _
    exact hmain

/-- Witness for C3: excluding the file `/src/a` drops exactly its copy
operation. -/
theorem C3_witness :
    (nodePaths "/src" tC3).Nodup ∧ supportedTree tC3 = true ∧
    findNode "/src" tC3 "/src/a" = some (.file 420) ∧
    (walkNode (fun _ => []) ["/src/a"] "/src" "/dst" "/src" tC3).ops =
      (walkNode (fun _ => []) [] "/src" "/dst" "/src" tC3).ops.filter
        (fun op => decide (¬ op.srcOf = some "/src/a")) :=
  ⟨by decide, by decide, by decide,
   (C3_exclude_prunes_exactly (fun _ => []) "/src" "/dst" "/src/a" tC3 (.file 420)
     (by decide) (by decide) (by decide)).1 ⟨420, rfl⟩⟩

end Goaci
